import Mathlib

set_option autoImplicit false

/-!
Verification development for the quote-image compositing engine of the
Swiftly bot repository (`src/lib/miq.py`, class `MakeItQuote`).

The Python code is shallowly embedded as executable Lean definitions:

* `TW.*` models CPython `textwrap.wrap` with its default options
  (`replace_whitespace=True`, `drop_whitespace=True`,
  `break_long_words=True`, `break_on_hyphens=True`, no indents,
  `max_lines=None`), which is what `MakeItQuote._wrap_text` calls.
  Fidelity notes: tab expansion (`expandtabs`) is not modelled (faithful
  for texts without tab characters); the hyphen/em-dash chunk splitting
  of `textwrap`'s `wordsep_re` is not modelled (faithful for texts
  without `-`); whitespace classification is the ASCII whitespace set
  used by `textwrap` (faithful for texts without non-ASCII whitespace).
  The long-word breaking of `_handle_long_word`, including its
  `rfind('-')` adjustment, is modelled.

* Machine integers are `Int`/`Nat`; Python's floor division `//` is
  `Int.fdiv`.  The float comparison `total_height <= max_height * 0.7`
  is modelled as the exact rational comparison `10 * total ≤ 7 * maxH`
  (the IEEE double nearest 0.7 differs from 7/10 by less than 2^-54,
  which cannot flip the comparison for the integer magnitudes involved);
  likewise `int(min(w, h) * 0.05)` is modelled as `(min w h).tdiv 20`.

* PIL images are modelled by their observable geometry: a `PImage` is a
  width, a height and a mode string.  Pixel content is outside the
  claims under verification; every PIL operation used by the code is
  modelled by its effect on geometry/mode and by its failure conditions
  (`resize` rejects negative sizes, `alpha_composite` requires equal
  sizes and RGBA inputs, `np.linspace` rejects a negative sample count).

* Errors: every Python `raise ValueError(f"...: {e}") from e` is
  modelled as `Except (List String)` where the list is the chain of
  stage messages, outermost first.  ASCII tags stand for the original
  Japanese messages.

* The `functools.lru_cache` decorators on `_get_random_background`,
  `_get_random_font` (maxsize=32) and `_create_gradient_overlay`
  (maxsize=16) are modelled by an explicit most-recently-used-first
  association list (`lruLookup`/`cachedCall`): a hit moves the entry to
  the front and performs no computation, a miss computes, inserts at the
  front and truncates to the capacity (evicting the least recently used
  entry).  The real caches are keyed on `self` as well; the instance id
  is part of the key in the asset-picker model below.
-/

namespace TW

/-- The six ASCII whitespace characters of `textwrap._whitespace`.  This
is the set `wordsep_re` and `unicode_whitespace_trans` are built from. -/
def isWs (c : Char) : Bool :=
  c = ' ' || c = '\t' || c = '\n' || c = '\x0b' || c = '\x0c' || c = '\r'

/-- The characters Python's `str.strip()` removes: the Unicode whitespace
set.  `_wrap_chunks`'s `drop_whitespace` test is `chunk.strip() == ''`,
which uses this larger set, while `wordsep_re` splits only on `isWs`:
a chunk such as `"\xa0"` is a word for the splitter yet whitespace for
the drop test.  Theorems about round-tripping therefore keep word
characters outside this set. -/
def pyStripWs (c : Char) : Bool :=
  isWs c || c.toNat = 0x1c || c.toNat = 0x1d || c.toNat = 0x1e
    || c.toNat = 0x1f || c.toNat = 0x85 || c.toNat = 0xa0
    || c.toNat = 0x1680 || (0x2000 ≤ c.toNat && c.toNat ≤ 0x200a)
    || c.toNat = 0x2028 || c.toNat = 0x2029 || c.toNat = 0x202f
    || c.toNat = 0x205f || c.toNat = 0x3000

/-- `_munge_whitespace` with `replace_whitespace=True`: each whitespace
character becomes a single space (tab expansion not modelled). -/
def munge (s : List Char) : List Char :=
  s.map (fun c => if isWs c then ' ' else c)

/-- Prepend a character to a run decomposition: extend the first run when
the space/non-space class matches, else start a new run. -/
def addToRuns (c : Char) : List (List Char) → List (List Char)
  | [] => [[c]]
  | [] :: rest => [[c]] ++ rest
  | (d :: ds) :: rest =>
    if decide (c = ' ') = decide (d = ' ') then (c :: d :: ds) :: rest
    else [c] :: (d :: ds) :: rest

/-- Split munged text into maximal runs of spaces / non-spaces.  This is
the chunk list produced by `wordsep_re` on text whose non-space runs
contain no `'-'`: the regex's hyphenated-word and em-dash alternatives
(`break_on_hyphens=True`) can only fire on a hyphen, and its whitespace
class is exactly the ASCII `isWs` set.  Hyphen splitting is not
modelled, so theorems that rely on chunk boundaries hypothesise
hyphen-free words. -/
def splitChunks : List Char → List (List Char)
  | [] => []
  | c :: cs => addToRuns c (splitChunks cs)

/-- A chunk counts as whitespace for the drop logic iff
`chunk.strip() == ''`.  After `munge`, ASCII whitespace is a single
space, so this test is the code's provided the chunk avoids the
non-ASCII part of `pyStripWs` (which `str.strip` also removes);
round-trip theorems keep word characters outside that set. -/
def wsChunk (c : List Char) : Bool := c.all (· = ' ')

/-- The greedy inner loop of `_wrap_chunks`: move chunks onto the current
line while the accumulated length stays within `width`.  Returns the
current line, its length and the unconsumed chunks. -/
def fillLine (width : Nat) : Nat → List (List Char) → List (List Char) →
    List (List Char) × Nat × List (List Char)
  | curLen, acc, [] => (acc, curLen, [])
  | curLen, acc, c :: rest =>
    if curLen + c.length ≤ width then fillLine width (curLen + c.length) (acc ++ [c]) rest
    else (acc, curLen, c :: rest)

/-- `str.rfind('-', 0, bound)`: the largest index `i < bound` holding `'-'`. -/
def rfindHyphenIdx (c : List Char) (bound : Nat) : Option Nat :=
  (List.range bound).reverse.find? (fun i => c.getD i 'x' = '-')

/-- `TextWrapper._handle_long_word` with `break_long_words=True` and
`break_on_hyphens=True`.  The head chunk is longer than `width`; a prefix
of it is moved onto the current line and the remainder stays queued. -/
def handleLongWord (width curLen : Nat) (cur : List (List Char))
    (chunks : List (List Char)) : List (List Char) × List (List Char) :=
  match chunks with
  | [] => (cur, [])
  | c :: rest =>
    let spaceLeft := if width < 1 then 1 else width - curLen
    let endIdx :=
      if spaceLeft < c.length then
        match rfindHyphenIdx c spaceLeft with
        | some h => if 0 < h ∧ (c.take h).any (· ≠ '-') then h + 1 else spaceLeft
        | none => spaceLeft
      else spaceLeft
    (cur ++ [c.take endIdx], c.drop endIdx :: rest)

/-- Fuel-independent measure of a chunk list: total characters plus number
of chunks.  Every iteration of the outer `_wrap_chunks` loop strictly
decreases it, so `chunksMeasure cs + 1` units of fuel always suffice. -/
def chunksMeasure (cs : List (List Char)) : Nat :=
  (cs.map (fun c => c.length + 1)).sum

/-- The `if chunks and len(chunks[-1]) > width` step of `_wrap_chunks`:
invoke `_handle_long_word` exactly when the next queued chunk is longer
than the width. -/
def longWordStep (width curLen : Nat) (cur : List (List Char)) :
    List (List Char) → List (List Char) × List (List Char)
  | [] => (cur, [])
  | c :: rest =>
    if width < c.length then handleLongWord width curLen cur (c :: rest)
    else (cur, c :: rest)

/-- The trailing `drop_whitespace` step of `_wrap_chunks`: remove the last
chunk of the current line when it is pure whitespace. -/
def dropTrailing (cur : List (List Char)) : List (List Char) :=
  if (cur.getLast?.map wsChunk).getD false then cur.dropLast else cur

/-- The outer loop of `TextWrapper._wrap_chunks` (default options, fuelled
so that the definition is structurally recursive and kernel-computable).
One iteration: drop a leading whitespace chunk if a line was already
produced, fill the line greedily, break a too-long head chunk, drop a
trailing whitespace chunk, and emit the line if non-empty. -/
def wrapChunksLoop (width : Nat) : Nat → List (List Char) → List (List Char) →
    List (List Char)
  | 0, lines, _ => lines.reverse
  | _ + 1, lines, [] => lines.reverse
  | fuel + 1, lines, c0 :: rest0 =>
    let chunks1 := if wsChunk c0 ∧ lines ≠ [] then rest0 else c0 :: rest0
    let filled := fillLine width 0 [] chunks1
    let handled := longWordStep width filled.2.1 filled.1 filled.2.2
    let cur3 := dropTrailing handled.1
    let lines2 := if cur3 ≠ [] then cur3.flatten :: lines else lines
    wrapChunksLoop width fuel lines2 handled.2

/-- `TextWrapper._wrap_chunks`: rejects non-positive widths with
`ValueError("invalid width ...")`, otherwise runs the greedy loop. -/
def wrapChunks (width : Int) (chunks : List (List Char)) :
    Except (List String) (List (List Char)) :=
  if width ≤ 0 then Except.error ["invalid-width"]
  else Except.ok (wrapChunksLoop width.toNat (chunksMeasure chunks + 1) [] chunks)

/-- `textwrap.wrap(text, width=width)` with default options. -/
def pyWrap (text : String) (width : Int) : Except (List String) (List String) :=
  (wrapChunks width (splitChunks (munge text.data))).map
    (fun ls => ls.map (fun l => String.mk l))

end TW

/-- `MakeItQuote._wrap_text`: delegates to `textwrap.wrap` and rewraps any
failure in a `ValueError` of its own. -/
def wrapText (text : String) (width : Int) : Except (List String) (List String) :=
  match TW.pyWrap text width with
  | Except.ok ls => Except.ok ls
  | Except.error e => Except.error ("wrap-failed" :: e)

/-! ## Style presets and style resolution (`MakeItQuote.__init__`, `create_quote`) -/

/-- An RGB triple. -/
abbrev Color := Int × Int × Int

/-- A style configuration dictionary.  Every field is optional, modelling a
Python dict that may omit keys; each consumer reads its key with
`style_settings.get(key, default)`. -/
structure StyleDict where
  font_size : Option Int := none
  text_color : Option Color := none
  shadow_opacity : Option Int := none
  gradient_overlay : Option Bool := none
  rounded_corners : Option Bool := none
  overlay_opacity : Option Int := none
  shadow_strength : Option Int := none
  deriving Repr, DecidableEq

/-- The `"modern"` preset of `self.style_presets`. -/
def modernPreset : StyleDict :=
  { font_size := some 90, text_color := some (255, 255, 255),
    shadow_opacity := some 180, gradient_overlay := some true,
    rounded_corners := some false, overlay_opacity := some 120,
    shadow_strength := some 3 }

/-- The `"minimal"` preset of `self.style_presets`. -/
def minimalPreset : StyleDict :=
  { font_size := some 80, text_color := some (255, 255, 255),
    shadow_opacity := some 120, gradient_overlay := some false,
    rounded_corners := some false, overlay_opacity := some 100,
    shadow_strength := some 2 }

/-- The `"bold"` preset of `self.style_presets`. -/
def boldPreset : StyleDict :=
  { font_size := some 100, text_color := some (255, 240, 200),
    shadow_opacity := some 200, gradient_overlay := some true,
    rounded_corners := some false, overlay_opacity := some 140,
    shadow_strength := some 4 }

/-- `self.style_presets.get(style, self.style_presets["modern"])`. -/
def presetLookup (name : String) : StyleDict :=
  if name = "modern" then modernPreset
  else if name = "minimal" then minimalPreset
  else if name = "bold" then boldPreset
  else modernPreset

/-- The `style` argument of `create_quote`: a preset name or an explicit
configuration dict. -/
inductive StyleArg where
  | name (s : String)
  | config (d : StyleDict)
  deriving Repr, DecidableEq

/-- Lines 288-291 of `create_quote`: a string selects a preset (unknown
names fall back to `modern`); an explicit dict is used as is. -/
def resolveStyleSettings : StyleArg → StyleDict
  | StyleArg.name s => presetLookup s
  | StyleArg.config d => d

/-- `style_settings.get("font_size", self.default_font_size)` (line 316). -/
def effFontSize (st : StyleDict) : Int := st.font_size.getD 90

/-- `style_settings.get("text_color", self.default_text_color)` (line 295). -/
def effTextColor (st : StyleDict) : Color := st.text_color.getD (255, 255, 255)

/-- `style_settings.get("shadow_opacity", 180)` (line 296). -/
def effShadowOpacity (st : StyleDict) : Int := st.shadow_opacity.getD 180

/-- `style_settings.get("shadow_strength", 3)` (line 369). -/
def effShadowStrength (st : StyleDict) : Int := st.shadow_strength.getD 3

/-- `style_settings.get("rounded_corners", False)` (line 412). -/
def effRoundedCorners (st : StyleDict) : Bool := st.rounded_corners.getD false

/-- `style.get("gradient_overlay", False)` (line 194, inside
`_enhance_background_parallel`). -/
def effGradientOverlay (st : StyleDict) : Bool := st.gradient_overlay.getD false

/-- `style.get("overlay_opacity", 160)` (line 190, inside
`_enhance_background_parallel`). -/
def effOverlayOpacity (st : StyleDict) : Int := st.overlay_opacity.getD 160

/-- A fully resolved style: the seven rendering parameters with the
values the pipeline actually consumes. -/
structure FullStyle where
  font_size : Int
  text_color : Color
  shadow_opacity : Int
  gradient_overlay : Bool
  rounded_corners : Bool
  overlay_opacity : Int
  shadow_strength : Int
  deriving Repr, DecidableEq

/-- The effective parameters the code derives from an explicit style dict,
one `.get` per call site. -/
def codeEffectiveStyle (st : StyleDict) : FullStyle :=
  { font_size := effFontSize st, text_color := effTextColor st,
    shadow_opacity := effShadowOpacity st,
    gradient_overlay := effGradientOverlay st,
    rounded_corners := effRoundedCorners st,
    overlay_opacity := effOverlayOpacity st,
    shadow_strength := effShadowStrength st }

/-- Modelled from the spec: `resolve(style)` for an explicit config "uses
as given, filling any missing field from `modern`".  This is the
comparison point for claim C5, not a translation of the code. -/
def specResolveConfig (st : StyleDict) : FullStyle :=
  { font_size := st.font_size.getD 90,
    text_color := st.text_color.getD (255, 255, 255),
    shadow_opacity := st.shadow_opacity.getD 180,
    gradient_overlay := st.gradient_overlay.getD true,
    rounded_corners := st.rounded_corners.getD false,
    overlay_opacity := st.overlay_opacity.getD 120,
    shadow_strength := st.shadow_strength.getD 3 }

/-- The empty explicit configuration (a style dict with no keys). -/
def emptyStyleDict : StyleDict := {}

/-! ## Font-size fitting (`MakeItQuote._calculate_optimal_font_size`)

The font metric `bbox : Int → String → Int` abstracts
`self._get_font(font_path, size).getbbox(text)[2]`: the pixel advance
width that FreeType reports for `text` at point size `size`.  Quantifying
over `bbox` quantifies over the font file. -/

/-- The wrap width computed at candidate size `s`:
`(max_width - 100) // max(1, font.getbbox("A")[2])` (line 259 and 344). -/
def wrapWidthAt (bbox : Int → String → Int) (maxWidth : Int) (s : Int) : Int :=
  (maxWidth - 100).fdiv (max 1 (bbox s "A"))

/-- `max(font.getbbox(line)[2] for line in wrapped_text)`; `none` models the
`ValueError` Python's `max` raises on an empty sequence. -/
def maxLineWidth (bbox : Int → String → Int) (s : Int) :
    List String → Option Int
  | [] => none
  | l :: ls => some (ls.foldl (fun a b => max a (bbox s b)) (bbox s l))

/-- One acceptance test of the descent (lines 259-268): re-wrap at size
`s`, then require max line width `≤ max_width - 100` and
`len(wrapped) * (s + 10) ≤ max_height * 0.7`.  Errors propagate. -/
def fitStep (bbox : Int → String → Int) (text : String)
    (maxWidth maxHeight : Int) (s : Int) :
    Except (List String) Bool :=
  match wrapText text (wrapWidthAt bbox maxWidth s) with
  | Except.error e => Except.error e
  | Except.ok lines =>
    match maxLineWidth bbox s lines with
    | none => Except.error ["max-empty-sequence"]
    | some mlw =>
      Except.ok (mlw ≤ maxWidth - 100 ∧
        10 * ((lines.length : Int) * (s + 10)) ≤ 7 * maxHeight)

/-- The `while current_size > min_font_size` loop (min 20, step 5),
fuelled; `sizeLoopFuel n cur` agrees with the Python loop whenever
`(cur - 20).toNat ≤ n` (see `sizeLoopFuel_congr`). -/
def sizeLoopFuel (bbox : Int → String → Int) (text : String)
    (maxWidth maxHeight : Int) : Nat → Int → Except (List String) Int
  | 0, _ => Except.ok 20
  | n + 1, cur =>
    if 20 < cur then
      match fitStep bbox text maxWidth maxHeight cur with
      | Except.error e => Except.error e
      | Except.ok true => Except.ok cur
      | Except.ok false => sizeLoopFuel bbox text maxWidth maxHeight n (cur - 5)
    else Except.ok 20

/-- `_calculate_optimal_font_size(text, max_width, max_height, font_path,
initial_size)`: the failure chain gains this method's own `ValueError`
message on the way out (its `except` clause). -/
def calculateOptimalFontSize (bbox : Int → String → Int) (text : String)
    (maxWidth maxHeight : Int) (initialSize : Int) :
    Except (List String) Int :=
  match sizeLoopFuel bbox text maxWidth maxHeight (initialSize - 20).toNat initialSize with
  | Except.error e => Except.error ("font-size-calc-failed" :: e)
  | Except.ok s => Except.ok s

/-- The candidate sizes the descent examines: `initial, initial - 5, ...`
while above the floor 20 (fuelled like the loop itself). -/
def candListFuel : Nat → Int → List Int
  | 0, _ => []
  | n + 1, cur => if 20 < cur then cur :: candListFuel n (cur - 5) else []

/-- The candidate list for a given initial size. -/
def specCandidates (initialSize : Int) : List Int :=
  candListFuel (initialSize - 20).toNat initialSize

/-- Decidable form of "at candidate `s` the wrap succeeds and yields at
least one line" (the claim's implicit precondition at each step). -/
def wrapOkNe (text : String) (w : Int) : Bool :=
  match TW.pyWrap text w with
  | Except.error _ => false
  | Except.ok ls => !ls.isEmpty

/-- Boolean acceptance condition in the claim's own words: after
re-wrapping at size `s`, the max wrapped-line pixel width is
`≤ maxWidth - 100` and the total block height is `≤ 0.7 * maxHeight`. -/
def fitsAt (bbox : Int → String → Int) (text : String)
    (maxWidth maxHeight : Int) (s : Int) : Bool :=
  match fitStep bbox text maxWidth maxHeight s with
  | Except.error _ => false
  | Except.ok b => b

/-- Modelled from the spec (claim C2's wording): return the first
candidate size that fits, and the floor 20 if none above the floor
does. -/
def fitFontSizeSpec (bbox : Int → String → Int) (text : String)
    (maxWidth maxHeight : Int) (initialSize : Int) : Int :=
  ((specCandidates initialSize).find? (fitsAt bbox text maxWidth maxHeight)).getD 20

/-! ## Image pipeline (`create_quote`, `save_quote` and their helpers)

Images are modelled by their geometry and mode; the drawing calls
(`ImageDraw.text` via `_add_text_with_effects_parallel`) mutate pixel
content only and are geometry no-ops.  The thread pool joins every
future it submits before `create_quote` returns, and `prepare_background`
is `result()`-ed before `prepare_fonts`, so the pipeline is modelled
sequentially in exactly that order.  The `lru_cache` pinning of the
asset pickers is modelled separately (claim C7); here each call performs
the directory listing it would perform on a cache miss. -/

/-- Prepend a stage's message to a failure chain, as each
`except ... raise ValueError(...) from e` does. -/
def wrapE {α : Type} (tag : String) : Except (List String) α → Except (List String) α
  | Except.ok a => Except.ok a
  | Except.error e => Except.error (tag :: e)

/-- ASCII-lowercase a character, as `str.lower` does on the ASCII
filenames involved. -/
def lowerChar (c : Char) : Char :=
  if 'A' ≤ c ∧ c ≤ 'Z' then Char.ofNat (c.toNat + 32) else c

/-- `s.lower()` as a character list. -/
def strLower (s : String) : List Char := s.data.map lowerChar

/-- `f.lower().endswith((".png", ".jpg", ".jpeg"))` (line 79). -/
def hasImageExt (f : String) : Bool :=
  ".png".data.isSuffixOf (strLower f) || ".jpg".data.isSuffixOf (strLower f) ||
    ".jpeg".data.isSuffixOf (strLower f)

/-- `f.lower().endswith((".ttf", ".otf"))` (line 90). -/
def hasFontExt (f : String) : Bool :=
  ".ttf".data.isSuffixOf (strLower f) || ".otf".data.isSuffixOf (strLower f)

/-- A PIL image, reduced to its observable geometry and mode. -/
structure PImage where
  width : Int
  height : Int
  mode : String
  deriving Repr, DecidableEq

/-- `Image.convert(mode)`: geometry-preserving mode change. -/
def PImage.convert (im : PImage) (m : String) : PImage := { im with mode := m }

/-- `Image.resize(size, Resampling.LANCZOS)`: stretches to exactly `size`;
PIL rejects negative dimensions. -/
def resizeImage (im : PImage) (size : Int × Int) : Except (List String) PImage :=
  if size.1 < 0 ∨ size.2 < 0 then Except.error ["resize-invalid-size"]
  else Except.ok { width := size.1, height := size.2, mode := im.mode }

/-- `Image.new(mode, size, fill)`: PIL rejects negative dimensions. -/
def imageNew (mode : String) (size : Int × Int) : Except (List String) PImage :=
  if size.1 < 0 ∨ size.2 < 0 then Except.error ["new-invalid-size"]
  else Except.ok { width := size.1, height := size.2, mode := mode }

/-- `Image.alpha_composite(a, b)`: requires two RGBA images of identical
size and returns an image of that size. -/
def alphaComposite (a b : PImage) : Except (List String) PImage :=
  if a.width = b.width ∧ a.height = b.height ∧ a.mode = "RGBA" ∧ b.mode = "RGBA" then
    Except.ok { width := a.width, height := a.height, mode := "RGBA" }
  else Except.error ["alpha-composite-mismatch"]

/-- The execution environment of one render: the asset directory
listings, the indices `random.choice` resolves to, the font metric, and
the decoded size of a background file before resizing. -/
structure Env where
  fonts : List String
  backgrounds : List String
  fontIdx : Nat
  bgIdx : Nat
  bbox : Int → String → Int
  bgW : Int
  bgH : Int

/-- `_get_random_background` (modulo the `lru_cache` pinning, modelled in
the claim C7 section): list `.png/.jpg/.jpeg` entries, raise
`FileNotFoundError` (rewrapped into `ValueError`) if none, pick one. -/
def getRandomBackground (env : Env) : Except (List String) String :=
  let bgs := env.backgrounds.filter hasImageExt
  if bgs.isEmpty then Except.error ["bg-fetch-failed", "bg-not-found"]
  else Except.ok (bgs.getD (env.bgIdx % bgs.length) "")

/-- `_get_random_font` (modulo the `lru_cache` pinning): list
`.ttf/.otf` entries, raise if none, pick one. -/
def getRandomFont (env : Env) : Except (List String) String :=
  let fs := env.fonts.filter hasFontExt
  if fs.isEmpty then Except.error ["font-fetch-failed", "font-not-found"]
  else Except.ok (fs.getD (env.fontIdx % fs.length) "")

/-- `_get_font(font_path, size)`: `ImageFont.truetype` rejects
non-positive pixel sizes; the font cache is value-transparent. -/
def getFont (fontPath : String) (size : Int) : Except (List String) (String × Int) :=
  if size ≤ 0 then Except.error ["font-load-failed", "invalid-pixel-size"]
  else Except.ok (fontPath, size)

/-- `_create_gradient_overlay(size, start, end, direction)`: builds an
RGBA bitmap of exactly `size`; `np.linspace`/`np.zeros` reject negative
dimensions. -/
def createGradientOverlay (size : Int × Int) (_startColor _endColor : Int × Int × Int × Int)
    (_direction : String) : Except (List String) PImage :=
  if size.1 < 0 ∨ size.2 < 0 then Except.error ["gradient-failed", "negative-dimension"]
  else Except.ok { width := size.1, height := size.2, mode := "RGBA" }

/-- `_enhance_background_parallel(background, style)`: contrast,
brightness, colour and blur are geometry no-ops; then a flat overlay at
`style.get("overlay_opacity", 160)` is alpha-composited, and, when
`style.get("gradient_overlay", False)`, the cached vertical gradient
(transparent top, black 200 bottom) is composited on top. -/
def enhanceBackgroundParallel (bg : PImage) (st : StyleDict) :
    Except (List String) PImage :=
  wrapE "bg-enhance-failed" (do
    let overlay ← imageNew "RGBA" (bg.width, bg.height)
    let b ← alphaComposite (bg.convert "RGBA") overlay
    if effGradientOverlay st then do
      let g ← createGradientOverlay (b.width, b.height) (0, 0, 0, 0) (0, 0, 0, 200) "vertical"
      alphaComposite b g
    else pure b)

/-- `_apply_rounded_corners(image, radius)`: builds corner masks and a
full-size alpha channel, then `putalpha` turns the image RGBA at its own
size. -/
def applyRoundedCorners (im : PImage) (radius : Int) : Except (List String) PImage :=
  wrapE "rounded-failed" (do
    let _circle ← imageNew "L" (radius * 2, radius * 2)
    let _alpha ← imageNew "L" (im.width, im.height)
    let im2 := if im.mode ≠ "RGBA" then im.convert "RGBA" else im
    pure { im2 with mode := "RGBA" })

/-- The `prepare_background` closure of `create_quote` (lines 300-312):
an explicit background skips the random selection entirely; a random one
is opened, converted, resized (failures of that inner block rewrapped),
and both flow into `_enhance_background_parallel`. -/
def prepareBackground (env : Env) (backgroundImage : Option PImage)
    (size : Int × Int) (st : StyleDict) : Except (List String) PImage :=
  match backgroundImage with
  | none => do
    let _path ← getRandomBackground env
    let opened : PImage := { width := env.bgW, height := env.bgH, mode := "RGB" }
    let bg ← wrapE "bg-load-failed" (resizeImage (opened.convert "RGBA") size)
    enhanceBackgroundParallel bg st
  | some im => do
    let bg ← resizeImage (im.convert "RGBA") size
    enhanceBackgroundParallel bg st

/-- `create_quote`.  Stages in program order: style resolution, font-path
resolution (`font_path or self._get_random_font()`), optional font-size
fitting, background preparation (first `result()`), font loading, quote
wrapping at `(width - 100) // max(1, bbox("A"))`, quote-mark/author/
watermark drawing (geometry no-ops), optional rounded corners.  The
outer `except` prepends `create-failed` to every failure chain. -/
def createQuote (env : Env) (quote : String) (author : Option String)
    (outputSize : Int × Int) (fontPath : Option String) (fontSize : Option Int)
    (textColor : Option Color) (backgroundImage : Option PImage)
    (style : StyleArg) : Except (List String) PImage :=
  wrapE "create-failed" (do
    let st := resolveStyleSettings style
    let fp ← match fontPath with
      | some p => if p = "" then getRandomFont env else pure p
      | none => getRandomFont env
    let _textColor : Color := textColor.getD (effTextColor st)
    let _shadowColor : Int × Int × Int × Int := (0, 0, 0, effShadowOpacity st)
    let fsz ← match fontSize with
      | none => calculateOptimalFontSize env.bbox quote outputSize.1 outputSize.2 (effFontSize st)
      | some s => pure s
    let background ← prepareBackground env backgroundImage outputSize st
    let _quoteFont ← getFont fp fsz
    let _authorFont ← getFont fp (fsz.fdiv 2)
    let wrappedQuote ← wrapText quote (wrapWidthAt env.bbox outputSize.1 fsz)
    let _totalQuoteHeight : Int := (wrappedQuote.length : Int) * (fsz + 10)
    let _quoteMarkFont ← getFont fp (3 * fsz)
    let _authorWidth : Int := match author with
      | some a => if a ≠ "" then env.bbox (fsz.fdiv 2) ("— " ++ a) else 0
      | none => 0
    let creditFontSize : Int := max (fsz.fdiv 5) 12
    let _creditFont ← wrapE "watermark-failed" (getFont fp creditFontSize)
    if effRoundedCorners st then
      wrapE "rounded-apply-failed"
        (applyRoundedCorners background ((min outputSize.1 outputSize.2).tdiv 20))
    else pure background)

/-- `save_quote(quote, output_path, author, **kwargs)`: renders, flattens
to RGB for `.jpg/.jpeg` targets, and writes.  A returned `ok (path, im)`
models the written file; on any failure nothing is written. -/
def saveQuote (env : Env) (quote : String) (outputPath : String)
    (author : Option String) (outputSize : Int × Int) (fontPath : Option String)
    (fontSize : Option Int) (textColor : Option Color)
    (backgroundImage : Option PImage) (style : StyleArg) :
    Except (List String) (String × PImage) :=
  wrapE "save-failed" (do
    let img ← createQuote env quote author outputSize fontPath fontSize textColor
      backgroundImage style
    let img2 := if ".jpg".data.isSuffixOf (strLower outputPath) ∨
        ".jpeg".data.isSuffixOf (strLower outputPath)
      then img.convert "RGB" else img
    pure (outputPath, img2))

/-! ## `functools.lru_cache` model (claims C7, C8)

`@lru_cache(maxsize=n)` keeps a bounded map from call arguments to
results.  A hit returns the stored result, moves the entry to the
most-recently-used position and does not run the function body; a miss
runs the body, stores the result and evicts the least-recently-used
entry when the bound is exceeded.  The cache is global to the decorated
function and, for methods, keyed on `self` along with the other
arguments.  The model is a most-recently-used-first association list. -/

/-- Association lookup in a most-recently-used-first cache. -/
def lruLookup {K V : Type} [DecidableEq K] (k : K) : List (K × V) → Option V
  | [] => none
  | (k', v) :: rest => if k' = k then some v else lruLookup k rest

/-- Remove the entry for `k` (used to move a hit entry to the front). -/
def lruRemove {K V : Type} [DecidableEq K] (k : K) (c : List (K × V)) :
    List (K × V) :=
  c.filter (fun e => decide (e.1 ≠ k))

/-- The observable outcome of one cached call: the value, the new cache,
the threaded state of the underlying computation, and whether the body
actually ran (a miss). -/
structure CacheResult (K V σ : Type) where
  value : V
  cache : List (K × V)
  state : σ
  missed : Bool
  deriving Repr, DecidableEq

/-- One call through an `lru_cache` of capacity `maxsize`. -/
def cachedCall {K V σ : Type} [DecidableEq K] (maxsize : Nat)
    (cache : List (K × V)) (k : K) (compute : σ → V × σ) (s : σ) :
    CacheResult K V σ :=
  match lruLookup k cache with
  | some v => ⟨v, (k, v) :: lruRemove k cache, s, false⟩
  | none =>
    let r := compute s
    ⟨r.1, ((k, r.1) :: cache).take maxsize, r.2, true⟩

/-- State of the `_get_random_background` (resp. `_get_random_font`)
cache across all generator instances: the 32-entry LRU keyed by the
instance, and a counter of how many directory listings + random draws
have been performed.  Each fresh draw yields a distinct value (draw
numbers stand for the chosen paths: equal numbers mean the identical
path object is returned). -/
structure PickerState where
  cache : List (Nat × Nat)
  draws : Nat
  deriving Repr, DecidableEq

/-- The picker cache before any call. -/
def pickerInit : PickerState := { cache := [], draws := 0 }

/-- One `instance._get_random_background()` call: an `lru_cache(maxsize=32)`
call keyed on the instance whose body lists the directory and draws at
random (modelled by consuming one draw number). -/
def pickerCall (st : PickerState) (inst : Nat) : (Nat × Bool) × PickerState :=
  let r := cachedCall 32 st.cache inst (fun n => (n, n + 1)) st.draws
  ((r.value, r.missed), { cache := r.cache, draws := r.state })

/-- Run a trace of picker calls (the instance making each call), returning
for each call the instance, the value returned, and whether a fresh
listing + draw happened. -/
def runPicker (st : PickerState) : List Nat → List (Nat × Nat × Bool) × PickerState
  | [] => ([], st)
  | i :: rest =>
    let c := pickerCall st i
    let tail := runPicker c.2 rest
    ((i, c.1.1, c.1.2) :: tail.1, tail.2)

/-- The key of the gradient-overlay cache: size, start colour, end
colour, direction (`self` omitted: one generator instance). -/
structure GradKey where
  size : Int × Int
  startColor : Int × Int × Int × Int
  endColor : Int × Int × Int × Int
  direction : String
  deriving Repr, DecidableEq

/-- The bitmap `_create_gradient_overlay` builds for a key (geometry
model of the numpy construction). -/
def gradientBitmap (k : GradKey) : PImage :=
  { width := k.size.1, height := k.size.2, mode := "RGBA" }

/-- One call to the `lru_cache(maxsize=16)`-decorated
`_create_gradient_overlay`; the `Nat` state counts executions of the
decorated body. -/
def gradientCall (cache : List (GradKey × PImage)) (k : GradKey) (n : Nat) :
    CacheResult GradKey PImage Nat :=
  cachedCall 16 cache k (fun m => (gradientBitmap k, m + 1)) n

/-! ## Concrete instances used by witnesses and counterexamples -/

/-- A monospace-style metric: every glyph of `text` is `size` pixels wide
(`getbbox(t)[2] = size * len(t)`). -/
def monoBbox (s : Int) (t : String) : Int := s * t.length

/-- A proportional metric where `W` is eleven times as wide as the other
glyphs — the kind of width variation a real proportional font has. -/
def wideWBbox (s : Int) (t : String) : Int :=
  s * (t.data.map (fun c => if c = 'W' then (11 : Int) else 1)).sum

/-- An environment with one usable font and one usable background. -/
def goodEnv : Env :=
  { fonts := ["font.ttf"], backgrounds := ["bg.png"], fontIdx := 0, bgIdx := 0,
    bbox := monoBbox, bgW := 300, bgH := 200 }

/-- The same environment with an empty backgrounds directory. -/
def emptyBgEnv : Env := { goodEnv with backgrounds := [] }

/-- The same environment with two background files, both usable. -/
def twoBgEnv : Env := { goodEnv with backgrounds := ["bg.png", "other.jpg"] }

/-- A concrete explicit background image. -/
def someBgImage : PImage := { width := 640, height := 480, mode := "RGB" }

/-! ## Remaining definitions used by the claim theorems -/

/-- The spec's `AssetNotFound` error kind, as the code realises it: the
failure chain reaches one of the two "no usable asset" raise sites
(`背景画像が見つかりません` / `フォントファイルが見つかりません`). -/
def isAssetNotFound (ch : List String) : Bool :=
  ch.contains "bg-not-found" || ch.contains "font-not-found"

/-- Modelled from the spec (claim C4's wording): the whitespace-normalized
text — runs of whitespace collapsed to single spaces, leading/trailing
whitespace dropped. -/
def wsNormalize (s : String) : String :=
  String.intercalate " "
    (((TW.splitChunks (TW.munge s.data)).filter (fun c => !TW.wsChunk c)).map
      (fun l => String.mk l))

/-- Reference greedy grouping of whole words: extend the current line
(of accumulated length `curLen`) with the next word while
`curLen + 1 + word length` stays within `width`. -/
def greedyTake (width : Nat) : Nat → List (List Char) → List (List Char) × List (List Char)
  | _, [] => ([], [])
  | curLen, w :: rest =>
    if curLen + 1 + w.length ≤ width then
      let g := greedyTake width (curLen + 1 + w.length) rest
      (w :: g.1, g.2)
    else ([], w :: rest)

/-- Reference greedy word-wrap: lines of whole words, fuelled by the word
count (each line consumes at least one word). -/
def greedyLinesFuel (width : Nat) : Nat → List (List Char) → List (List Char)
  | 0, _ => []
  | _ + 1, [] => []
  | n + 1, w :: rest =>
    let t := greedyTake width w.length rest
    (List.intercalate [' '] (w :: t.1)) :: greedyLinesFuel width n t.2

/-- A word list is admissible for width `width`: words non-empty,
space-free, and no longer than `width`. -/
def wordsOK (width : Nat) (ws : List (List Char)) : Prop :=
  ∀ w ∈ ws, w ≠ [] ∧ w.length ≤ width ∧ ∀ c ∈ w, c ≠ ' '

/-- The chunk sequence `space, word, space, word, ...`: what a word group
beyond the first word of a line contributes. -/
def spPairs (g : List (List Char)) : List (List Char) :=
  g.flatMap (fun w => [[' '], w])

deriving instance DecidableEq for Except

/-- The gradient-cache key `create_quote` uses for a 1920x1080 canvas:
full size, transparent-to-black colours, vertical direction. -/
def k1920 : GradKey :=
  { size := (1920, 1080), startColor := (0, 0, 0, 0),
    endColor := (0, 0, 0, 200), direction := "vertical" }

/-- Modelled from the spec (claim C4's wording): join wrapped lines with
single spaces. -/
def joinWithSpaces (ls : List String) : String :=
  String.mk (List.intercalate [' '] (ls.map String.data))

/-- One iteration of the `_wrap_chunks` outer loop after the
leading-whitespace drop has been resolved to the chunk list `chunks1`:
fill the line, break a long head chunk, drop trailing whitespace, emit
the line if non-empty, and continue with the remaining fuel. -/
def wrapIter (width fuel : Nat) (lines chunks1 : List (List Char)) :
    List (List Char) :=
  let filled := TW.fillLine width 0 [] chunks1
  let handled := TW.longWordStep width filled.2.1 filled.1 filled.2.2
  let cur3 := TW.dropTrailing handled.1
  let lines2 := if cur3 ≠ [] then cur3.flatten :: lines else lines
  TW.wrapChunksLoop width fuel lines2 handled.2

/-! # Claim theorems -/

/-! ## Claim C5: style resolution -/

/-- C5 (counterexample): for the explicit configuration `{}` the code does
not fill every missing field from the `modern` preset: the effective
parameters differ from the spec's fill-from-modern resolution (the code
uses `gradient_overlay=False` and `overlay_opacity=160` as call-site
defaults, while `modern` has `True` and `120`). -/
theorem C5_counterexample :
    codeEffectiveStyle emptyStyleDict ≠ specResolveConfig emptyStyleDict := by
  decide

/-- C5 (amended): a style name consults the preset table and an unknown
name resolves to `modern`; an explicit configuration dict is used as
supplied, and each missing field is filled with the call-site default —
which coincides with the `modern` value for `font_size` (90),
`text_color` ((255,255,255)), `shadow_opacity` (180), `shadow_strength`
(3) and `rounded_corners` (false), but is `false` for `gradient_overlay`
(modern: true) and `160` for `overlay_opacity` (modern: 120). -/
theorem C5_style_resolution :
    (∀ s : String, s ≠ "modern" → s ≠ "minimal" → s ≠ "bold" →
      resolveStyleSettings (StyleArg.name s) = modernPreset) ∧
    resolveStyleSettings (StyleArg.name "modern") = modernPreset ∧
    resolveStyleSettings (StyleArg.name "minimal") = minimalPreset ∧
    resolveStyleSettings (StyleArg.name "bold") = boldPreset ∧
    ∀ d : StyleDict,
      resolveStyleSettings (StyleArg.config d) = d ∧
      codeEffectiveStyle d =
        { specResolveConfig d with
          gradient_overlay := d.gradient_overlay.getD false,
          overlay_opacity := d.overlay_opacity.getD 160 } := by
  refine ⟨?_, rfl, ?_, ?_, ?_⟩
  · intro s h1 h2 h3
    simp [resolveStyleSettings, presetLookup, h1, h2, h3]
  · simp [resolveStyleSettings, presetLookup]
  · simp [resolveStyleSettings, presetLookup]
  · intro d
    exact ⟨rfl, rfl⟩

/-- C5 (witness): the unknown name `"fancy"` resolves to the `modern`
preset, and the empty dict resolves to the code's call-site defaults. -/
theorem C5_witness :
    resolveStyleSettings (StyleArg.name "fancy") = modernPreset ∧
    codeEffectiveStyle emptyStyleDict =
      { specResolveConfig emptyStyleDict with
        gradient_overlay := emptyStyleDict.gradient_overlay.getD false,
        overlay_opacity := emptyStyleDict.overlay_opacity.getD 160 } :=
  ⟨C5_style_resolution.1 "fancy" (by decide) (by decide) (by decide),
    (C5_style_resolution.2.2.2.2 emptyStyleDict).2⟩

/-! ## Claim C8: the gradient-overlay cache -/

lemma lruRemove_length_lt {K V : Type} [DecidableEq K] (k : K) (c : List (K × V)) (v : V)
    (h : lruLookup k c = some v) : (lruRemove k c).length < c.length := by
  induction c with
  | nil => simp [lruLookup] at h
  | cons e rest ih =>
    by_cases he : e.1 = k
    · have h1 : (lruRemove k rest).length ≤ rest.length := by
        simpa [lruRemove] using List.length_filter_le _ rest
      have h2 : lruRemove k (e :: rest) = lruRemove k rest := by
        simp [lruRemove, List.filter, he]
      rw [h2]
      simp only [List.length_cons]
      omega
    · have h' : lruLookup k rest = some v := by
        simpa [lruLookup, he] using h
      have h2 : lruRemove k (e :: rest) = e :: lruRemove k rest := by
        simp [lruRemove, List.filter, he]
      rw [h2]
      simpa using ih h'

/-- C8: the gradient cache memoizes by the full key: a second request with
an identical key returns the very value stored by the first, performs no
recomputation (`missed = false`, execution counter unchanged); the cache
never exceeds 16 entries; and a miss on a full cache inserts the new
entry and evicts exactly the least-recently-used (final) one. -/
theorem C8_gradient_cache :
    (∀ (cache : List (GradKey × PImage)) (k : GradKey) (n : Nat),
      (gradientCall (gradientCall cache k n).cache k (gradientCall cache k n).state).value
          = (gradientCall cache k n).value ∧
      (gradientCall (gradientCall cache k n).cache k (gradientCall cache k n).state).missed
          = false ∧
      (gradientCall (gradientCall cache k n).cache k (gradientCall cache k n).state).state
          = (gradientCall cache k n).state) ∧
    (∀ (cache : List (GradKey × PImage)) (k : GradKey) (n : Nat),
      cache.length ≤ 16 → (gradientCall cache k n).cache.length ≤ 16) ∧
    (∀ (cache : List (GradKey × PImage)) (k : GradKey) (n : Nat),
      lruLookup k cache = none → cache.length = 16 →
      (gradientCall cache k n).cache = (k, gradientBitmap k) :: cache.dropLast) := by
  refine ⟨?_, ?_, ?_⟩
  · intro cache k n
    unfold gradientCall cachedCall
    cases h : lruLookup k cache with
    | some v => simp [lruLookup]
    | none => simp [List.take_succ_cons, lruLookup]
  · intro cache k n hle
    unfold gradientCall cachedCall
    cases h : lruLookup k cache with
    | some v =>
      have := lruRemove_length_lt k cache v h
      simp only [List.length_cons]
      omega
    | none =>
      simp [List.length_take_le]
  · intro cache k n hmiss hfull
    unfold gradientCall cachedCall
    rw [hmiss]
    simp only [List.take_succ_cons]
    have : cache.take 15 = cache.dropLast := by
      rw [List.dropLast_eq_take, hfull]
    rw [this]

/-- C8 (witness): concrete runs of the cache at the key the pipeline uses
for a 1920x1080 canvas. -/
theorem C8_witness :
    (gradientCall (gradientCall [] k1920 0).cache k1920 (gradientCall [] k1920 0).state).missed
        = false ∧
    (gradientCall [] k1920 0).cache.length ≤ 16 := by
  exact ⟨(C8_gradient_cache.1 [] k1920 0).2.1,
    C8_gradient_cache.2.1 [] k1920 0 (by decide)⟩

/-! ## Claims C2 and C3: the font-size descent -/

lemma wrapOkNe_fitStep (bbox : Int → String → Int) (text : String)
    (maxW maxH s : Int) (h : wrapOkNe text (wrapWidthAt bbox maxW s) = true) :
    fitStep bbox text maxW maxH s = Except.ok (fitsAt bbox text maxW maxH s) := by
  unfold wrapOkNe at h
  unfold fitsAt fitStep wrapText
  cases hw : TW.pyWrap text (wrapWidthAt bbox maxW s) with
  | error e => rw [hw] at h; simp at h
  | ok ls =>
    rw [hw] at h
    cases ls with
    | nil => simp at h
    | cons l ls' => simp [maxLineWidth]

lemma sizeLoop_spec (bbox : Int → String → Int) (text : String) (maxW maxH : Int) :
    ∀ (n : Nat) (cur : Int), (cur - 20).toNat ≤ n →
    (∀ s ∈ candListFuel n cur, wrapOkNe text (wrapWidthAt bbox maxW s) = true) →
    sizeLoopFuel bbox text maxW maxH n cur =
      Except.ok (((candListFuel n cur).find? (fitsAt bbox text maxW maxH)).getD 20) := by
  intro n
  induction n with
  | zero => intro cur _ _; simp [sizeLoopFuel, candListFuel]
  | succ n ih =>
    intro cur hle hall
    by_cases hcur : 20 < cur
    · have hmem : cur ∈ candListFuel (n + 1) cur := by
        simp [candListFuel, hcur]
      have hok := hall cur hmem
      simp only [sizeLoopFuel, candListFuel, hcur, if_true]
      rw [wrapOkNe_fitStep bbox text maxW maxH cur hok]
      cases hfit : fitsAt bbox text maxW maxH cur with
      | true => simp [List.find?, hfit]
      | false =>
        simp only [List.find?, hfit]
        have hle' : (cur - 5 - 20).toNat ≤ n := by omega
        have hall' : ∀ s ∈ candListFuel n (cur - 5),
            wrapOkNe text (wrapWidthAt bbox maxW s) = true := by
          intro s hs
          exact hall s (by simp [candListFuel, hcur, hs])
        exact ih (cur - 5) hle' hall'
    · simp [sizeLoopFuel, candListFuel, hcur]

/-- C2 (counterexample): at `maxWidth = 50` (a positive width) the
function does not return the first fitting candidate nor the floor — it
raises, because the computed wrap width is non-positive and
`textwrap.wrap` rejects it. -/
theorem C2_counterexample :
    calculateOptimalFontSize monoBbox "a" 50 1000 90 ≠
      Except.ok (fitFontSizeSpec monoBbox "a" 50 1000 90) := by
  decide

/-- C2 (amended): provided each candidate size wraps successfully into at
least one line (in particular the computed wrap width is positive), the
search starts at `initialSize`, steps down by 5 with floor 20, re-wraps
at each candidate, returns the first candidate whose max wrapped-line
width is `≤ maxWidth - 100` and whose block height is
`≤ 0.7 * maxHeight`, and returns 20 when no candidate above the floor
fits; otherwise it raises instead of returning. -/
theorem C2_descent_refines_spec (bbox : Int → String → Int) (text : String)
    (maxW maxH initial : Int)
    (h : ∀ s ∈ specCandidates initial, wrapOkNe text (wrapWidthAt bbox maxW s) = true) :
    calculateOptimalFontSize bbox text maxW maxH initial =
      Except.ok (fitFontSizeSpec bbox text maxW maxH initial) := by
  unfold calculateOptimalFontSize fitFontSizeSpec
  rw [sizeLoop_spec bbox text maxW maxH ((initial - 20).toNat) initial le_rfl h]
  rfl

/-- C2 (witness): a concrete run where the descent accepts the initial
size 90 on an 800x400 canvas. -/
theorem C2_witness :
    (∀ s ∈ specCandidates 90, wrapOkNe "Hello world" (wrapWidthAt monoBbox 800 s) = true) ∧
    calculateOptimalFontSize monoBbox "Hello world" 800 400 90 =
      Except.ok (fitFontSizeSpec monoBbox "Hello world" 800 400 90) :=
  ⟨by decide, C2_descent_refines_spec monoBbox "Hello world" 800 400 90 (by decide)⟩

lemma sizeLoop_ub (bbox : Int → String → Int) (text : String) (maxW maxH : Int) :
    ∀ (n : Nat) (cur r : Int),
    sizeLoopFuel bbox text maxW maxH n cur = Except.ok r → r = 20 ∨ (20 < r ∧ r ≤ cur) := by
  intro n
  induction n with
  | zero =>
    intro cur r h
    simp only [sizeLoopFuel] at h
    exact Or.inl (Except.ok.inj h).symm
  | succ n ih =>
    intro cur r h
    simp only [sizeLoopFuel] at h
    by_cases hcur : 20 < cur
    · rw [if_pos hcur] at h
      cases hf : fitStep bbox text maxW maxH cur with
      | error e => rw [hf] at h; exact absurd h (by simp)
      | ok b =>
        rw [hf] at h
        cases b with
        | true =>
          have hr : cur = r := Except.ok.inj h
          subst hr
          exact Or.inr ⟨hcur, le_refl cur⟩
        | false =>
          rcases ih (cur - 5) r h with h20 | ⟨hgt, hle⟩
          · exact Or.inl h20
          · exact Or.inr ⟨hgt, by omega⟩
    · rw [if_neg hcur] at h
      exact Or.inl (Except.ok.inj h).symm

lemma fitStep_mono (bbox : Int → String → Int) (text : String) (maxW H H' s : Int)
    (hH : H ≤ H') :
    (∀ e, fitStep bbox text maxW H s = Except.error e ↔
      fitStep bbox text maxW H' s = Except.error e) ∧
    (fitStep bbox text maxW H s = Except.ok true →
      fitStep bbox text maxW H' s = Except.ok true) := by
  unfold fitStep
  cases hw : wrapText text (wrapWidthAt bbox maxW s) with
  | error e => simp
  | ok lines =>
    cases hm : maxLineWidth bbox s lines with
    | none => simp [hm]
    | some mlw =>
      simp only [hm]
      constructor
      · intro e
        constructor <;> intro hh <;> exact absurd hh (by simp)
      · intro h
        simp only [Except.ok.injEq, decide_eq_true_eq] at h ⊢
        obtain ⟨h1, h2⟩ := h
        refine ⟨h1, ?_⟩
        generalize (lines.length : Int) * (s + 10) = t at h2 ⊢
        omega

lemma sizeLoop_mono (bbox : Int → String → Int) (text : String) (maxW H H' : Int)
    (hH : H ≤ H') :
    ∀ (n : Nat) (cur r : Int),
    sizeLoopFuel bbox text maxW H n cur = Except.ok r →
    ∃ r', sizeLoopFuel bbox text maxW H' n cur = Except.ok r' ∧ r ≤ r' := by
  intro n
  induction n with
  | zero =>
    intro cur r h
    simp only [sizeLoopFuel] at h ⊢
    exact ⟨20, rfl, le_of_eq (Except.ok.inj h).symm⟩
  | succ n ih =>
    intro cur r h
    simp only [sizeLoopFuel] at h ⊢
    by_cases hcur : 20 < cur
    · rw [if_pos hcur] at h ⊢
      have hmono := fitStep_mono bbox text maxW H H' cur hH
      cases hf : fitStep bbox text maxW H cur with
      | error e =>
        rw [hf] at h
        exact absurd h (by simp)
      | ok b =>
        rw [hf] at h
        cases hf' : fitStep bbox text maxW H' cur with
        | error e =>
          have hc : fitStep bbox text maxW H cur = Except.error e := (hmono.1 e).mpr hf'
          rw [hf] at hc
          exact absurd hc (by simp)
        | ok b' =>
          cases b with
          | true =>
            have ht : fitStep bbox text maxW H' cur = Except.ok true := hmono.2 hf
            rw [hf'] at ht
            have hb' : b' = true := Except.ok.inj ht
            subst hb'
            have hr : cur = r := Except.ok.inj h
            subst hr
            exact ⟨cur, rfl, le_refl cur⟩
          | false =>
            cases b' with
            | true =>
              refine ⟨cur, rfl, ?_⟩
              rcases sizeLoop_ub bbox text maxW H n (cur - 5) r h with h20 | ⟨_, hle⟩
              · omega
              · omega
            | false => exact ih (cur - 5) r h
    · rw [if_neg hcur] at h ⊢
      exact ⟨20, rfl, le_of_eq (Except.ok.inj h).symm⟩

/-- C3 (counterexample): with a proportional font whose `W` glyph is much
wider than the others, enlarging only the canvas width (1090 to 1180 at
height 1000) makes the returned size drop from 90 to 45: the wider
canvas merges the text onto one wrapped line whose pixel width then
exceeds the width budget at every large size. -/
theorem C3_counterexample :
    calculateOptimalFontSize wideWBbox "aaaaaaaaaa W" 1090 1000 90 = Except.ok 90 ∧
    calculateOptimalFontSize wideWBbox "aaaaaaaaaa W" 1180 1000 90 = Except.ok 45 ∧
    (1090 : Int) ≤ 1180 ∧ (1000 : Int) ≤ 1000 ∧ (45 : Int) < 90 := by
  exact ⟨by decide, by decide, by decide, by decide, by decide⟩

/-- C3 (amended): the descent is monotone non-decreasing in `maxHeight`
for fixed text, font and `maxWidth`: if the search succeeds at height
`H`, it succeeds at any `H' ≥ H` with a result at least as large.
Monotonicity in `maxWidth` fails (see the counterexample): growing the
width changes the wrap width and can strictly shrink the result. -/
theorem C3_height_monotone (bbox : Int → String → Int) (text : String)
    (maxW H H' initial r : Int) (hH : H ≤ H')
    (hok : calculateOptimalFontSize bbox text maxW H initial = Except.ok r) :
    ∃ r', calculateOptimalFontSize bbox text maxW H' initial = Except.ok r' ∧ r ≤ r' := by
  unfold calculateOptimalFontSize at hok ⊢
  cases hs : sizeLoopFuel bbox text maxW H ((initial - 20).toNat) initial with
  | error e => rw [hs] at hok; exact absurd hok (by simp)
  | ok s0 =>
    rw [hs] at hok
    obtain ⟨r', h1, h2⟩ :=
      sizeLoop_mono bbox text maxW H H' hH ((initial - 20).toNat) initial s0 hs
    rw [h1]
    exact ⟨r', rfl, le_trans (le_of_eq (Except.ok.inj hok).symm) h2⟩

/-- C3 (witness): growing only the height from 400 to 1000 keeps the
result at least 90 on the 800-wide canvas. -/
theorem C3_witness :
    ∃ r', calculateOptimalFontSize monoBbox "Hello world" 800 1000 90 = Except.ok r' ∧
      (90 : Int) ≤ r' :=
  C3_height_monotone monoBbox "Hello world" 800 400 1000 90 90 (by decide) (by decide)

/-! ## Claim C7: pinned random asset selection -/

lemma lruLookup_none_iff {K V : Type} [DecidableEq K] (k : K) (c : List (K × V)) :
    lruLookup k c = none ↔ k ∉ c.map Prod.fst := by
  induction c with
  | nil => simp [lruLookup]
  | cons e rest ih =>
    by_cases he : e.1 = k
    · simp [lruLookup, he]
    · simp only [lruLookup, he, if_false, List.map_cons, List.mem_cons, ih]
      constructor
      · intro h hc
        rcases hc with hc | hc
        · exact he hc.symm
        · exact h hc
      · intro h
        exact fun hc => h (Or.inr hc)

lemma lruLookup_remove_ne {K V : Type} [DecidableEq K] (j k : K) (c : List (K × V))
    (hjk : j ≠ k) : lruLookup j (lruRemove k c) = lruLookup j c := by
  induction c with
  | nil => rfl
  | cons e rest ih =>
    by_cases he : e.1 = k
    · have h1 : lruRemove k (e :: rest) = lruRemove k rest := by
        simp [lruRemove, List.filter_cons, he]
      have h2 : e.1 ≠ j := by rw [he]; exact fun hh => hjk hh.symm
      rw [h1, ih]
      simp [lruLookup, h2]
    · have h1 : lruRemove k (e :: rest) = e :: lruRemove k rest := by
        simp [lruRemove, List.filter_cons, he]
      rw [h1]
      by_cases hej : e.1 = j
      · simp [lruLookup, hej]
      · simp [lruLookup, hej, ih]

lemma lruRemove_keys_mem {K V : Type} [DecidableEq K] (j k : K) (c : List (K × V)) :
    j ∈ (lruRemove k c).map Prod.fst ↔ j ∈ c.map Prod.fst ∧ j ≠ k := by
  simp only [lruRemove, List.mem_map]
  constructor
  · rintro ⟨e, he, rfl⟩
    have := List.of_mem_filter he
    exact ⟨⟨e, List.mem_of_mem_filter he, rfl⟩, by simpa using this⟩
  · rintro ⟨⟨e, he, rfl⟩, hne⟩
    exact ⟨e, List.mem_filter.mpr ⟨he, by simpa using hne⟩, rfl⟩

lemma lruRemove_keys_nodup {K V : Type} [DecidableEq K] (k : K) (c : List (K × V))
    (h : (c.map Prod.fst).Nodup) : ((lruRemove k c).map Prod.fst).Nodup :=
  ((List.filter_sublist c).map Prod.fst).nodup h

lemma runPicker_append (t1 t2 : List Nat) (st : PickerState) :
    runPicker st (t1 ++ t2) =
      ((runPicker st t1).1 ++ (runPicker (runPicker st t1).2 t2).1,
        (runPicker (runPicker st t1).2 t2).2) := by
  induction t1 generalizing st with
  | nil => simp [runPicker]
  | cons a rest ih => simp [runPicker, ih]

lemma runPicker_firsts (t : List Nat) (st : PickerState) :
    (runPicker st t).1.map (fun o => o.1) = t := by
  induction t generalizing st with
  | nil => rfl
  | cons a rest ih => simp [runPicker, ih]

lemma runPicker_inv :
    ∀ (t : List Nat) (st : PickerState) (S : Finset Nat),
    ((st.cache.map Prod.fst).Nodup) →
    (∀ j, j ∈ st.cache.map Prod.fst ↔ j ∈ S) →
    (S ∪ t.toFinset).card ≤ 32 →
    ((runPicker st t).2.cache.map Prod.fst).Nodup ∧
    (∀ j, j ∈ (runPicker st t).2.cache.map Prod.fst ↔ j ∈ S ∪ t.toFinset) ∧
    (∀ j v, lruLookup j st.cache = some v →
      lruLookup j (runPicker st t).2.cache = some v) ∧
    (∀ j v w m, lruLookup j st.cache = some v → (j, w, m) ∈ (runPicker st t).1 →
      w = v ∧ m = false) ∧
    (∀ j w m, (j, w, m) ∈ (runPicker st t).1 →
      lruLookup j (runPicker st t).2.cache = some w) := by
  intro t
  induction t with
  | nil =>
    intro st S hnd hmem hcard
    refine ⟨hnd, ?_, fun j v h => h, ?_, ?_⟩
    · intro j; simpa using hmem j
    · intro j v w m _ hmem2; simp [runPicker] at hmem2
    · intro j w m hmem2; simp [runPicker] at hmem2
  | cons a rest ih =>
    intro st S hnd hmem hcard
    cases hl : lruLookup a st.cache with
    | some v =>
      have hain : a ∈ st.cache.map Prod.fst := by
        by_contra hc
        rw [← lruLookup_none_iff] at hc
        rw [hl] at hc
        exact absurd hc (by simp)
      have hainS : a ∈ S := (hmem a).mp hain
      have hst : pickerCall st a =
          ((v, false), ⟨(a, v) :: lruRemove a st.cache, st.draws⟩) := by
        simp [pickerCall, cachedCall, hl]
      have hnd' : (((a, v) :: lruRemove a st.cache).map Prod.fst).Nodup := by
        refine List.nodup_cons.mpr ⟨?_, lruRemove_keys_nodup a st.cache hnd⟩
        rw [lruRemove_keys_mem]
        simp
      have hmem' : ∀ j, j ∈ ((a, v) :: lruRemove a st.cache).map Prod.fst ↔ j ∈ S := by
        intro j
        simp only [List.map_cons, List.mem_cons, lruRemove_keys_mem]
        constructor
        · rintro (rfl | ⟨hj, _⟩)
          · exact hainS
          · exact (hmem j).mp hj
        · intro hj
          by_cases hja : j = a
          · exact Or.inl hja
          · exact Or.inr ⟨(hmem j).mpr hj, hja⟩
      have hcard' : (S ∪ rest.toFinset).card ≤ 32 := by
        refine le_trans (Finset.card_le_card ?_) hcard
        intro x hx
        rcases Finset.mem_union.mp hx with hx | hx
        · exact Finset.mem_union_left _ hx
        · exact Finset.mem_union_right _ (by simp [hx])
      have hstep : ∀ j v0, lruLookup j st.cache = some v0 →
          lruLookup j ((a, v) :: lruRemove a st.cache) = some v0 := by
        intro j v0 hjv
        by_cases hja : j = a
        · have hv : v = v0 := by
            rw [hja] at hjv
            exact Option.some.inj (hl.symm.trans hjv)
          rw [hja]
          simp [lruLookup, hv]
        · have h1 : lruLookup j ((a, v) :: lruRemove a st.cache)
              = lruLookup j (lruRemove a st.cache) := by
            simp only [lruLookup]
            rw [if_neg (fun h => hja h.symm)]
          rw [h1, lruLookup_remove_ne j a st.cache hja]
          exact hjv
      obtain ⟨i1, i2, i3, i4, i5⟩ :=
        ih ⟨(a, v) :: lruRemove a st.cache, st.draws⟩ S hnd' hmem' hcard'
      have hSeq : S ∪ (a :: rest).toFinset = S ∪ rest.toFinset := by
        ext x
        simp only [List.toFinset_cons, Finset.mem_union, Finset.mem_insert]
        constructor
        · rintro (hx | rfl | hx)
          · exact Or.inl hx
          · exact Or.inl hainS
          · exact Or.inr hx
        · rintro (hx | hx)
          · exact Or.inl hx
          · exact Or.inr (Or.inr hx)
      simp only [runPicker, hst]
      refine ⟨i1, ?_, ?_, ?_, ?_⟩
      · intro j; rw [hSeq]; exact i2 j
      · intro j v0 hjv
        exact i3 j v0 (hstep j v0 hjv)
      · intro j v0 w m hjv hmem2
        simp only [List.mem_cons] at hmem2
        rcases hmem2 with heq | hmem2
        · simp only [Prod.mk.injEq] at heq
          obtain ⟨hja, hw, hm⟩ := heq
          have hv : v = v0 := by
            rw [hja] at hjv
            exact Option.some.inj (hl.symm.trans hjv)
          exact ⟨hw.trans hv, hm⟩
        · exact i4 j v0 w m (hstep j v0 hjv) hmem2
      · intro j w m hmem2
        simp only [List.mem_cons] at hmem2
        rcases hmem2 with heq | hmem2
        · simp only [Prod.mk.injEq] at heq
          obtain ⟨hja, hw, hm⟩ := heq
          refine i3 j w ?_
          rw [hja, hw]
          simp [lruLookup]
        · exact i5 j w m hmem2
    | none =>
      have hanotin : a ∉ st.cache.map Prod.fst := (lruLookup_none_iff a st.cache).mp hl
      have hanotS : a ∉ S := fun hc => hanotin ((hmem a).mpr hc)
      have hkeylen : st.cache.length = S.card := by
        have h1 : (st.cache.map Prod.fst).toFinset = S := by
          ext j; simp [hmem j]
        have h2 : (st.cache.map Prod.fst).toFinset.card = (st.cache.map Prod.fst).length :=
          List.toFinset_card_of_nodup hnd
        rw [h1] at h2
        simpa using h2.symm
      have hsub : insert a S ⊆ S ∪ (a :: rest).toFinset := by
        intro x hx
        rcases Finset.mem_insert.mp hx with rfl | hx
        · exact Finset.mem_union_right _ (by simp)
        · exact Finset.mem_union_left _ hx
      have hcard1 : S.card + 1 ≤ 32 := by
        have := le_trans (Finset.card_le_card hsub) hcard
        rwa [Finset.card_insert_of_not_mem hanotS] at this
      have hlen : st.cache.length ≤ 31 := by omega
      have htake : ((a, st.draws) :: st.cache).take 32 = (a, st.draws) :: st.cache := by
        refine List.take_of_length_le ?_
        simp only [List.length_cons]
        omega
      have hst : pickerCall st a =
          ((st.draws, true), ⟨(a, st.draws) :: st.cache, st.draws + 1⟩) := by
        simp [pickerCall, cachedCall, hl, htake]
      have hnd' : (((a, st.draws) :: st.cache).map Prod.fst).Nodup :=
        List.nodup_cons.mpr ⟨hanotin, hnd⟩
      have hmem' : ∀ j, j ∈ ((a, st.draws) :: st.cache).map Prod.fst ↔ j ∈ insert a S := by
        intro j
        simp only [List.map_cons, List.mem_cons, Finset.mem_insert, hmem j]
      have hSeq : insert a S ∪ rest.toFinset = S ∪ (a :: rest).toFinset := by
        ext x
        simp only [List.toFinset_cons, Finset.mem_union, Finset.mem_insert]
        tauto
      have hcard' : (insert a S ∪ rest.toFinset).card ≤ 32 := by
        rw [hSeq]; exact hcard
      have hstep : ∀ j v0, lruLookup j st.cache = some v0 →
          lruLookup j ((a, st.draws) :: st.cache) = some v0 := by
        intro j v0 hjv
        have hja : j ≠ a := by
          intro hja
          rw [hja, hl] at hjv
          exact absurd hjv (by simp)
        have h1 : lruLookup j ((a, st.draws) :: st.cache) = lruLookup j st.cache := by
          simp only [lruLookup]
          rw [if_neg (fun h => hja h.symm)]
        rw [h1]; exact hjv
      obtain ⟨i1, i2, i3, i4, i5⟩ :=
        ih ⟨(a, st.draws) :: st.cache, st.draws + 1⟩ (insert a S) hnd' hmem' hcard'
      simp only [runPicker, hst]
      refine ⟨i1, ?_, ?_, ?_, ?_⟩
      · intro j; rw [← hSeq]; exact i2 j
      · intro j v0 hjv
        exact i3 j v0 (hstep j v0 hjv)
      · intro j v0 w m hjv hmem2
        simp only [List.mem_cons] at hmem2
        rcases hmem2 with heq | hmem2
        · exfalso
          simp only [Prod.mk.injEq] at heq
          obtain ⟨hja, _, _⟩ := heq
          rw [hja, hl] at hjv
          exact absurd hjv (by simp)
        · exact i4 j v0 w m (hstep j v0 hjv) hmem2
      · intro j w m hmem2
        simp only [List.mem_cons] at hmem2
        rcases hmem2 with heq | hmem2
        · simp only [Prod.mk.injEq] at heq
          obtain ⟨hja, hw, hm⟩ := heq
          refine i3 j w ?_
          rw [hja, hw]
          simp [lruLookup]
        · exact i5 j w m hmem2

/-- C7 (counterexample): the pinning is not per-instance in general: the
asset pickers share one `lru_cache(maxsize=32)` keyed by the instance,
so after 33 distinct generator instances each pick once, instance 0's
entry has been evicted and its second call performs a fresh listing and
random draw (`missed = true`) returning a different path (draw 33, not
its first draw 0). -/
theorem C7_counterexample :
    (runPicker pickerInit (List.range 33 ++ [0])).1.head? = some (0, 0, true) ∧
    (runPicker pickerInit (List.range 33 ++ [0])).1.getLast? = some (0, 33, true) := by
  exact ⟨by decide, by decide⟩

/-- C7 (amended): as long as at most 32 distinct generator instances use
a picker, the pinning holds: any call by an instance that has already
called it is a cache hit — no new directory listing or random draw — and
returns a path identical to the one every call of that instance
(including the first) received. -/
theorem C7_pinned_within_capacity (pre : List Nat) (i : Nat) (hi : i ∈ pre)
    (hcard : pre.dedup.length ≤ 32) :
    ∃ v, (runPicker pickerInit (pre ++ [i])).1.getLast? = some (i, v, false) ∧
      ∀ w m, (i, w, m) ∈ (runPicker pickerInit (pre ++ [i])).1 → w = v := by
  have hfin : ((∅ : Finset Nat) ∪ pre.toFinset).card ≤ 32 := by
    rw [Finset.empty_union, List.card_toFinset]
    exact hcard
  obtain ⟨_, _, _, _, p5⟩ :=
    runPicker_inv pre pickerInit ∅ (by simp [pickerInit]) (by simp [pickerInit]) hfin
  have hexists : ∃ w m, (i, w, m) ∈ (runPicker pickerInit pre).1 := by
    have hf := runPicker_firsts pre pickerInit
    rw [← hf] at hi
    obtain ⟨o, ho, hoi⟩ := List.mem_map.mp hi
    refine ⟨o.2.1, o.2.2, ?_⟩
    rw [← hoi]
    exact ho
  obtain ⟨w, m, hw⟩ := hexists
  have hlook : lruLookup i (runPicker pickerInit pre).2.cache = some w := p5 i w m hw
  have happ := runPicker_append pre [i] pickerInit
  have hcall : (runPicker (runPicker pickerInit pre).2 [i]).1 = [(i, w, false)] := by
    simp [runPicker, pickerCall, cachedCall, hlook]
  refine ⟨w, ?_, ?_⟩
  · rw [happ]
    simp only [hcall]
    exact List.getLast?_concat _
  · intro w' m' hmem
    rw [happ] at hmem
    simp only [hcall] at hmem
    rcases List.mem_append.mp hmem with hmem | hmem
    · have := p5 i w' m' hmem
      exact Option.some.inj (this.symm.trans hlook)
    · simp only [List.mem_singleton, Prod.mk.injEq] at hmem
      exact hmem.2.1

/-- C7 (witness): in the trace 0,1,0 the third call (instance 0, already
seen, two distinct instances in play) is a pinned hit. -/
theorem C7_witness :
    ∃ v, (runPicker pickerInit ([0, 1, 0] ++ [0])).1.getLast? = some (0, v, false) ∧
      ∀ w m, (0, w, m) ∈ (runPicker pickerInit ([0, 1, 0] ++ [0])).1 → w = v :=
  C7_pinned_within_capacity [0, 1, 0] 0 (by decide) (by decide)

/-! ## Claims C1, C6, C9, C10: the `create_quote` / `save_quote` pipeline -/

lemma wrapE_ok {α : Type} (tag : String) (x : Except (List String) α) (a : α) :
    wrapE tag x = Except.ok a ↔ x = Except.ok a := by
  cases x <;> simp [wrapE]

lemma wrapE_error (tag : String) {α : Type} (x : Except (List String) α) :
    (∃ e, wrapE tag x = Except.error e) ↔ ∃ e, x = Except.error e := by
  cases x <;> simp [wrapE]

lemma enhance_ok (bg : PImage) (st : StyleDict) (o : PImage)
    (h : enhanceBackgroundParallel bg st = Except.ok o) :
    o = ⟨bg.width, bg.height, "RGBA"⟩ := by
  unfold enhanceBackgroundParallel at h
  by_cases hneg : bg.width < 0 ∨ bg.height < 0
  · simp [imageNew, hneg, wrapE, Except.bind, Bind.bind] at h
  · by_cases hg : effGradientOverlay st
    · simp [imageNew, hneg, wrapE, Except.bind, Bind.bind, alphaComposite,
        PImage.convert, createGradientOverlay, hg] at h
      exact h.symm
    · simp [imageNew, hneg, wrapE, Except.bind, Bind.bind, alphaComposite,
        PImage.convert, createGradientOverlay, hg, Pure.pure, Except.pure] at h
      exact h.symm

lemma prepareBackground_ok (env : Env) (bgi : Option PImage) (size : Int × Int)
    (st : StyleDict) (o : PImage)
    (h : prepareBackground env bgi size st = Except.ok o) :
    o = ⟨size.1, size.2, "RGBA"⟩ := by
  unfold prepareBackground at h
  cases bgi with
  | none =>
    cases hr : getRandomBackground env with
    | error e => simp [hr, Except.bind, Bind.bind] at h
    | ok p =>
      by_cases hneg : size.1 < 0 ∨ size.2 < 0
      · simp [hr, resizeImage, hneg, wrapE, Except.bind, Bind.bind, PImage.convert] at h
      · simp [hr, resizeImage, hneg, wrapE, Except.bind, Bind.bind, PImage.convert] at h
        exact enhance_ok _ _ _ h
  | some im =>
    by_cases hneg : size.1 < 0 ∨ size.2 < 0
    · simp [resizeImage, hneg, Except.bind, Bind.bind, PImage.convert] at h
    · simp [resizeImage, hneg, Except.bind, Bind.bind, PImage.convert] at h
      exact enhance_ok _ _ _ h

lemma rounded_ok (im : PImage) (r : Int) (o : PImage)
    (h : applyRoundedCorners im r = Except.ok o) :
    o = ⟨im.width, im.height, "RGBA"⟩ := by
  unfold applyRoundedCorners at h
  by_cases h1 : r * 2 < 0
  · simp [imageNew, h1, wrapE, Except.bind, Bind.bind] at h
  · by_cases h2 : im.width < 0 ∨ im.height < 0
    · simp [imageNew, h1, h2, wrapE, Except.bind, Bind.bind] at h
    · by_cases h3 : im.mode ≠ "RGBA" <;>
        simp [imageNew, h1, h2, h3, wrapE, Except.bind, Bind.bind, PImage.convert,
          Pure.pure, Except.pure] at h <;>
        exact h.symm

/-- C1 (counterexample): a request that satisfies the claim's stated
precondition (non-empty quote, one usable font, one usable background,
width and height positive) on which `create` raises instead of returning
an image: at output width 50 the wrap width is negative. -/
theorem C1_counterexample :
    createQuote goodEnv "Hello world" none (50, 400) none none none none
        (StyleArg.name "modern")
      = Except.error ["create-failed", "font-size-calc-failed", "wrap-failed",
          "invalid-width"] ∧
    goodEnv.fonts.filter hasFontExt ≠ [] ∧
    goodEnv.backgrounds.filter hasImageExt ≠ [] ∧
    "Hello world" ≠ "" ∧ (0 : Int) < 50 ∧ (0 : Int) < 400 := by
  exact ⟨by decide, by decide, by decide, by decide, by decide, by decide⟩

/-- C1 (amended): whenever `create` does return an image, its pixel
dimensions equal the requested `outputSize` exactly — including when
`rounded_corners` is enabled; but validity in the claim's sense (width
and height > 0) does not guarantee success: output widths ≤ 100 always
raise (see C10), so the success clause needs width > 100. -/
theorem C1_size (env : Env) (quote : String) (author : Option String)
    (outputSize : Int × Int) (fontPath : Option String) (fontSize : Option Int)
    (textColor : Option Color) (backgroundImage : Option PImage)
    (style : StyleArg) (img : PImage)
    (h : createQuote env quote author outputSize fontPath fontSize textColor
        backgroundImage style = Except.ok img) :
    img.width = outputSize.1 ∧ img.height = outputSize.2 := by
  unfold createQuote at h
  rw [wrapE_ok] at h
  simp only [bind, Except.bind] at h
  repeat' split at h
  all_goals try exact absurd h (by simp)
  all_goals
    have hv := prepareBackground_ok _ _ _ _ _ (by assumption :
      prepareBackground env backgroundImage outputSize (resolveStyleSettings style)
        = Except.ok _)
  all_goals first
    | (rw [wrapE_ok] at h
       have h2 := rounded_ok _ _ _ h
       rw [h2, hv]
       exact ⟨rfl, rfl⟩)
    | (try simp only [pure, Except.pure, Except.ok.injEq] at h
       rw [← h, hv]
       exact ⟨rfl, rfl⟩)

/-- C1 (witness): a concrete successful 800x400 render with rounded
corners enabled returns an exactly 800x400 image. -/
theorem C1_witness :
    createQuote goodEnv "Hello world" none (800, 400) none none none none
        (StyleArg.config { rounded_corners := some true })
      = Except.ok ⟨800, 400, "RGBA"⟩ ∧
    (PImage.mk 800 400 "RGBA").width = 800 ∧
    (PImage.mk 800 400 "RGBA").height = 400 := by
  have h : createQuote goodEnv "Hello world" none (800, 400) none none none none
      (StyleArg.config { rounded_corners := some true })
      = Except.ok ⟨800, 400, "RGBA"⟩ := by decide
  exact ⟨h, C1_size _ _ _ _ _ _ _ _ _ _ h⟩

lemma wrapWidthAt_nonpos (bbox : Int → String → Int) (W s : Int) (hW : W ≤ 100) :
    wrapWidthAt bbox W s ≤ 0 := by
  unfold wrapWidthAt
  have h1 : W - 100 ≤ 0 := by omega
  have h2 : (0 : Int) < max 1 (bbox s "A") :=
    lt_of_lt_of_le zero_lt_one (le_max_left _ _)
  rw [Int.fdiv_eq_ediv _ (le_of_lt h2)]
  have := Int.ediv_le_ediv h2 h1
  simpa using this

lemma wrapText_nonpos (text : String) (w : Int) (hw : w ≤ 0) :
    wrapText text w = Except.error ["wrap-failed", "invalid-width"] := by
  unfold wrapText TW.pyWrap TW.wrapChunks
  simp [hw, Except.map]

/-- C10: for every request with output width ≤ 100 pixels, `create`
raises regardless of quote text, assets, style and the other arguments:
the character wrap width `(width - 100) // max(1, glyphWidth("A"))` is
non-positive and `textwrap.wrap` rejects non-positive widths; every path
reaching a wrap (directly at line 344 or inside the font-size fitting)
hits that failure, and paths failing earlier fail anyway — so the spec's
precondition width > 0 is insufficient for success. -/
theorem C10_small_width (env : Env) (quote : String) (author : Option String)
    (outputSize : Int × Int) (fontPath : Option String) (fontSize : Option Int)
    (textColor : Option Color) (backgroundImage : Option PImage) (style : StyleArg)
    (hW : outputSize.1 ≤ 100) :
    ∃ ch, createQuote env quote author outputSize fontPath fontSize textColor
        backgroundImage style = Except.error ch := by
  unfold createQuote
  rw [wrapE_error]
  simp only [bind, Except.bind]
  have hwrap : ∀ s : Int, wrapText quote (wrapWidthAt env.bbox outputSize.1 s)
      = Except.error ["wrap-failed", "invalid-width"] :=
    fun s => wrapText_nonpos quote _ (wrapWidthAt_nonpos env.bbox outputSize.1 s hW)
  repeat' split
  all_goals first
    | exact ⟨_, rfl⟩
    | exact absurd ((hwrap _).symm.trans (by assumption :
        wrapText quote (wrapWidthAt env.bbox outputSize.1 _) = Except.ok _)) (by simp)

/-- C10 (witness): the concrete boundary width 100 with full assets
raises. -/
theorem C10_witness :
    ∃ ch, createQuote goodEnv "Hello" none (100, 400) none none none none
      (StyleArg.name "modern") = Except.error ch :=
  C10_small_width goodEnv "Hello" none (100, 400) none none none none
    (StyleArg.name "modern") (by decide)

/-- C9: when an explicit background image is supplied, the backgrounds
directory is never consulted and no random background draw occurs: the
result of `create` does not depend on the backgrounds listing, the
random background index or the decoded background size — in particular
an empty backgrounds directory causes no error. -/
theorem C9_explicit_background (env : Env) (bgs : List String) (bgIdx : Nat)
    (bgW bgH : Int) (quote : String) (author : Option String)
    (outputSize : Int × Int) (fontPath : Option String) (fontSize : Option Int)
    (textColor : Option Color) (backgroundImage : Option PImage) (im : PImage)
    (style : StyleArg) (h : backgroundImage = some im) :
    createQuote env quote author outputSize fontPath fontSize textColor
        backgroundImage style =
      createQuote { env with backgrounds := bgs, bgIdx := bgIdx, bgW := bgW, bgH := bgH }
        quote author outputSize fontPath fontSize textColor backgroundImage style := by
  subst h
  rfl

/-- C9 (witness): with an explicit background, an empty backgrounds
directory and a two-file directory give the identical successful
800x400 image. -/
theorem C9_witness :
    createQuote emptyBgEnv "Hello world" none (800, 400) none none none
        (some someBgImage) (StyleArg.name "modern") =
      createQuote twoBgEnv "Hello world" none (800, 400) none none none
        (some someBgImage) (StyleArg.name "modern") ∧
    createQuote emptyBgEnv "Hello world" none (800, 400) none none none
        (some someBgImage) (StyleArg.name "modern") =
      Except.ok ⟨800, 400, "RGBA"⟩ := by
  refine ⟨?_, by decide⟩
  exact C9_explicit_background emptyBgEnv ["bg.png", "other.jpg"] 0 300 200
    "Hello world" none (800, 400) none none none (some someBgImage) someBgImage
    (StyleArg.name "modern") rfl

lemma getRandomFont_error_shape (env : Env) (e : List String)
    (h : getRandomFont env = Except.error e) :
    e = ["font-fetch-failed", "font-not-found"] := by
  unfold getRandomFont at h
  by_cases hf : (env.fonts.filter hasFontExt).isEmpty
  · simp [hf] at h
    exact h.symm
  · simp [hf] at h

lemma prepareBackground_empty (env : Env) (size : Int × Int) (st : StyleDict)
    (hbg : env.backgrounds.filter hasImageExt = []) :
    prepareBackground env none size st =
      Except.error ["bg-fetch-failed", "bg-not-found"] := by
  unfold prepareBackground getRandomBackground
  simp [hbg, bind, Except.bind]

lemma saveQuote_of_create_error (env : Env) (quote path : String)
    (author : Option String) (outputSize : Int × Int) (fontPath : Option String)
    (fontSize : Option Int) (textColor : Option Color)
    (bgi : Option PImage) (style : StyleArg) (ch : List String)
    (h : createQuote env quote author outputSize fontPath fontSize textColor bgi
        style = Except.error ch) :
    saveQuote env quote path author outputSize fontPath fontSize textColor bgi
        style = Except.error ("save-failed" :: ch) := by
  unfold saveQuote
  simp [wrapE, h, bind, Except.bind]

lemma create_empty_cases (env : Env) (quote : String) (author : Option String)
    (outputSize : Int × Int) (fontPath : Option String) (fontSize : Option Int)
    (textColor : Option Color) (style : StyleArg)
    (hbg : env.backgrounds.filter hasImageExt = [])
    (hstage : ((fontPath = none ∨ fontPath = some "") ∧
        env.fonts.filter hasFontExt = []) ∨
      fontSize ≠ none ∨
      ∃ s, calculateOptimalFontSize env.bbox quote outputSize.1 outputSize.2
        (effFontSize (resolveStyleSettings style)) = Except.ok s) :
    createQuote env quote author outputSize fontPath fontSize textColor none style
        = Except.error ["create-failed", "font-fetch-failed", "font-not-found"] ∨
    createQuote env quote author outputSize fontPath fontSize textColor none style
        = Except.error ["create-failed", "bg-fetch-failed", "bg-not-found"] := by
  have hprep := prepareBackground_empty env outputSize (resolveStyleSettings style) hbg
  have hfonts : env.fonts.filter hasFontExt = [] → getRandomFont env
      = Except.error ["font-fetch-failed", "font-not-found"] := by
    intro hf
    unfold getRandomFont
    simp [hf]
  have hokpath : ∀ fp : String, (match fontPath with
        | some p => if p = "" then getRandomFont env else pure p
        | none => getRandomFont env) = Except.ok fp →
      (fontSize ≠ none ∨ ∃ s, calculateOptimalFontSize env.bbox quote outputSize.1
        outputSize.2 (effFontSize (resolveStyleSettings style)) = Except.ok s) →
      createQuote env quote author outputSize fontPath fontSize textColor none style
        = Except.error ["create-failed", "bg-fetch-failed", "bg-not-found"] := by
    intro fp hfp hrest
    cases fontPath with
    | none =>
      have hgf : getRandomFont env = Except.ok fp := hfp
      unfold createQuote
      cases fontSize with
      | some s => simp [wrapE, bind, Except.bind, hgf, pure, Except.pure, hprep]
      | none =>
        rcases hrest with hne | ⟨s, hc⟩
        · exact absurd rfl hne
        · simp [wrapE, bind, Except.bind, hgf, hc, hprep]
    | some p =>
      have h2 : (if p = "" then getRandomFont env else pure p) = Except.ok fp := hfp
      by_cases hp : p = ""
      · rw [if_pos hp] at h2
        unfold createQuote
        cases fontSize with
        | some s => simp [wrapE, bind, Except.bind, hp, h2, pure, Except.pure, hprep]
        | none =>
          rcases hrest with hne | ⟨s, hc⟩
          · exact absurd rfl hne
          · simp [wrapE, bind, Except.bind, hp, h2, hc, hprep]
      · unfold createQuote
        cases fontSize with
        | some s => simp [wrapE, bind, Except.bind, hp, pure, Except.pure, hprep]
        | none =>
          rcases hrest with hne | ⟨s, hc⟩
          · exact absurd rfl hne
          · simp [wrapE, bind, Except.bind, hp, pure, Except.pure, hc, hprep]
  cases hres : (match fontPath with
      | some p => if p = "" then getRandomFont env else pure p
      | none => getRandomFont env) with
  | error e =>
    left
    have he : e = ["font-fetch-failed", "font-not-found"] := by
      cases fontPath with
      | none => exact getRandomFont_error_shape env e hres
      | some p =>
        have h2 : (if p = "" then getRandomFont env else pure p) = Except.error e := hres
        by_cases hp : p = ""
        · rw [if_pos hp] at h2
          exact getRandomFont_error_shape env e h2
        · rw [if_neg hp] at h2
          exact absurd h2 (by simp [pure, Except.pure])
    subst he
    cases fontPath with
    | none =>
      have hgf : getRandomFont env
          = Except.error ["font-fetch-failed", "font-not-found"] := hres
      unfold createQuote
      simp [wrapE, bind, Except.bind, hgf]
    | some p =>
      have h2 : (if p = "" then getRandomFont env else pure p)
          = Except.error ["font-fetch-failed", "font-not-found"] := hres
      by_cases hp : p = ""
      · rw [if_pos hp] at h2
        unfold createQuote
        simp [wrapE, bind, Except.bind, hp, h2]
      · rw [if_neg hp] at h2
        exact absurd h2 (by simp [pure, Except.pure])
  | ok fp =>
    right
    rcases hstage with ⟨hform, hf⟩ | hrest
    · exfalso
      have := hfonts hf
      rcases hform with h1 | h1 <;> rw [h1] at hres <;> simp [this] at hres
    · exact hokpath fp hres hrest

/-- C6 (counterexample): with an empty backgrounds directory but an
output width of 50, `create` fails — yet not with the AssetNotFound
kind: the font-size fitting stage fails first with the invalid-wrap-width
error, so the claim's unconditional "fails with AssetNotFound" is wrong. -/
theorem C6_counterexample :
    emptyBgEnv.backgrounds.filter hasImageExt = [] ∧
    createQuote emptyBgEnv "Hello world" none (50, 400) none none none none
        (StyleArg.name "modern")
      = Except.error ["create-failed", "font-size-calc-failed", "wrap-failed",
          "invalid-width"] ∧
    isAssetNotFound ["create-failed", "font-size-calc-failed", "wrap-failed",
        "invalid-width"] = false := by
  exact ⟨by decide, by decide, by decide⟩

/-- C6 (amended): with no usable file in the backgrounds directory and no
explicit background, `create` fails and `save` fails without writing any
output file; the failure carries the AssetNotFound kind (a missing-font
or missing-background cause in its chain) provided no earlier stage
fails first — that is, when the font-size fitting succeeds, or an
explicit font size is given, or the random-font lookup itself fails for
lack of fonts. -/
theorem C6_empty_backgrounds (env : Env) (quote path : String)
    (author : Option String) (outputSize : Int × Int) (fontPath : Option String)
    (fontSize : Option Int) (textColor : Option Color) (style : StyleArg)
    (hbg : env.backgrounds.filter hasImageExt = [])
    (hstage : ((fontPath = none ∨ fontPath = some "") ∧
        env.fonts.filter hasFontExt = []) ∨
      fontSize ≠ none ∨
      ∃ s, calculateOptimalFontSize env.bbox quote outputSize.1 outputSize.2
        (effFontSize (resolveStyleSettings style)) = Except.ok s) :
    (∃ ch, createQuote env quote author outputSize fontPath fontSize textColor
        none style = Except.error ch ∧ isAssetNotFound ch = true) ∧
    (∃ ch, saveQuote env quote path author outputSize fontPath fontSize textColor
        none style = Except.error ch ∧ isAssetNotFound ch = true) := by
  rcases create_empty_cases env quote author outputSize fontPath fontSize textColor
      style hbg hstage with hc | hc
  · exact ⟨⟨["create-failed", "font-fetch-failed", "font-not-found"], hc, by decide⟩,
      ⟨["save-failed", "create-failed", "font-fetch-failed", "font-not-found"],
        saveQuote_of_create_error env quote path author outputSize fontPath
          fontSize textColor none style _ hc, by decide⟩⟩
  · exact ⟨⟨["create-failed", "bg-fetch-failed", "bg-not-found"], hc, by decide⟩,
      ⟨["save-failed", "create-failed", "bg-fetch-failed", "bg-not-found"],
        saveQuote_of_create_error env quote path author outputSize fontPath
          fontSize textColor none style _ hc, by decide⟩⟩

/-- C6 (witness): the empty-backgrounds environment with a valid layout
(800x400) fails with the bg-not-found cause, and `save` to "out.png"
writes nothing. -/
theorem C6_witness :
    (∃ ch, createQuote emptyBgEnv "Hello world" none (800, 400) none none none
        none (StyleArg.name "modern") = Except.error ch ∧
        isAssetNotFound ch = true) ∧
    (∃ ch, saveQuote emptyBgEnv "Hello world" "out.png" none (800, 400) none none
        none none (StyleArg.name "modern") = Except.error ch ∧
        isAssetNotFound ch = true) :=
  C6_empty_backgrounds emptyBgEnv "Hello world" "out.png" none (800, 400) none
    none none (StyleArg.name "modern") (by decide)
    (Or.inr (Or.inr ⟨90, by decide⟩))

/-! ## Claim C4: wrap/join round trip -/

lemma splitChunks_cons (c : Char) (t : List Char) :
    TW.splitChunks (c :: t) = TW.addToRuns c (TW.splitChunks t) := rfl

lemma splitChunks_head (c : Char) (t : List Char) :
    ∃ ds rest, TW.splitChunks (c :: t) = (c :: ds) :: rest := by
  rw [splitChunks_cons]
  cases h : TW.splitChunks t with
  | nil => exact ⟨[], [], rfl⟩
  | cons x rest =>
    cases x with
    | nil => exact ⟨[], rest, rfl⟩
    | cons d ds =>
      by_cases hcq : decide (c = ' ') = decide (d = ' ')
      · refine ⟨d :: ds, rest, ?_⟩
        simp only [TW.addToRuns]
        rw [if_pos hcq]
      · refine ⟨[], (d :: ds) :: rest, ?_⟩
        simp only [TW.addToRuns]
        rw [if_neg hcq]

lemma splitChunks_word (w : List Char) (hne : w ≠ [])
    (hc : ∀ c ∈ w, c ≠ ' ') : TW.splitChunks w = [w] := by
  induction w with
  | nil => exact absurd rfl hne
  | cons c w' ih =>
    cases w' with
    | nil => rfl
    | cons d ds =>
      have hw' : TW.splitChunks (d :: ds) = [d :: ds] :=
        ih (by simp) (fun x hx => hc x (List.mem_cons_of_mem c hx))
      have hcc : c ≠ ' ' := hc c (List.mem_cons_self c _)
      have hdd : d ≠ ' ' := hc d (by simp)
      rw [splitChunks_cons, hw']
      simp only [TW.addToRuns]
      rw [if_pos (by simp [hcc, hdd])]

lemma splitChunks_space_word (x : Char) (t : List Char) (hx : x ≠ ' ') :
    TW.splitChunks (' ' :: x :: t) = [' '] :: TW.splitChunks (x :: t) := by
  obtain ⟨ds, rest, h⟩ := splitChunks_head x t
  rw [splitChunks_cons, h]
  simp only [TW.addToRuns]
  rw [if_neg (by simp [hx])]

lemma splitChunks_word_prepend (w : List Char) (t : List Char) (hne : w ≠ [])
    (hc : ∀ c ∈ w, c ≠ ' ') :
    TW.splitChunks (w ++ ' ' :: t) = w :: TW.splitChunks (' ' :: t) := by
  induction w with
  | nil => exact absurd rfl hne
  | cons c w' ih =>
    cases w' with
    | nil =>
      obtain ⟨ds, rest, h⟩ := splitChunks_head ' ' t
      have hcc : c ≠ ' ' := hc c (List.mem_cons_self c _)
      have h0 : ([c] : List Char) ++ ' ' :: t = c :: ' ' :: t := by simp
      rw [h0, splitChunks_cons, h]
      simp only [TW.addToRuns]
      rw [if_neg (by simp [hcc]), ← h]
    | cons d ds =>
      have hih := ih (by simp) (fun x hx => hc x (List.mem_cons_of_mem c hx))
      have hcc : c ≠ ' ' := hc c (List.mem_cons_self c _)
      have hdd : d ≠ ' ' := hc d (by simp)
      have h0 : (c :: d :: ds) ++ ' ' :: t = c :: ((d :: ds) ++ ' ' :: t) := by simp
      rw [h0, splitChunks_cons, hih]
      simp only [TW.addToRuns]
      rw [if_pos (by simp [hcc, hdd])]

lemma split_intercalate (ws : List (List Char))
    (h : ∀ w ∈ ws, w ≠ [] ∧ ∀ c ∈ w, c ≠ ' ') :
    TW.splitChunks (List.intercalate [' '] ws) = List.intersperse [' '] ws := by
  induction ws with
  | nil => rfl
  | cons w ws' ih =>
    cases ws' with
    | nil =>
      have hw := h w (by simp)
      have h1 : List.intercalate [' '] [w] = w := by simp [List.intercalate]
      rw [h1]
      simpa using splitChunks_word w hw.1 hw.2
    | cons w2 rest =>
      have hw := h w (by simp)
      have hw2 := h w2 (by simp)
      have htail : ∀ x ∈ w2 :: rest, x ≠ [] ∧ ∀ c ∈ x, c ≠ ' ' :=
        fun x hx => h x (List.mem_cons_of_mem w hx)
      have hic : List.intercalate [' '] (w :: w2 :: rest)
          = w ++ ' ' :: List.intercalate [' '] (w2 :: rest) := by
        simp [List.intercalate]
      rw [hic, splitChunks_word_prepend w _ hw.1 hw.2]
      obtain ⟨c2, w2', h2eq⟩ : ∃ a b, w2 = a :: b := by
        cases hh : w2 with
        | nil => exact absurd hh hw2.1
        | cons a b => exact ⟨a, b, rfl⟩
      obtain ⟨t2, ht2⟩ : ∃ t2, List.intercalate [' '] (w2 :: rest) = c2 :: t2 := by
        cases rest with
        | nil => exact ⟨w2', by simp [List.intercalate, h2eq]⟩
        | cons r rs =>
          refine ⟨w2' ++ ' ' :: List.intercalate [' '] (r :: rs), ?_⟩
          rw [show List.intercalate [' '] (w2 :: r :: rs)
              = w2 ++ ' ' :: List.intercalate [' '] (r :: rs) from by simp [List.intercalate]]
          rw [h2eq]
          rfl
      have hc2 : c2 ≠ ' ' := hw2.2 c2 (by rw [h2eq]; simp)
      rw [ht2, splitChunks_space_word c2 t2 hc2, ← ht2, ih htail]
      rfl

lemma munge_id (l : List Char) (h : ∀ c ∈ l, TW.isWs c = false ∨ c = ' ') :
    TW.munge l = l := by
  unfold TW.munge
  induction l with
  | nil => rfl
  | cons c t ih =>
    have hc := h c (by simp)
    have ht := ih (fun x hx => h x (List.mem_cons_of_mem c hx))
    simp only [List.map_cons]
    rw [ht]
    rcases hc with hc | hc
    · rw [if_neg (by simp [hc])]
    · rw [hc]
      simp [TW.isWs]

lemma wsChunk_word (w : List Char) (hne : w ≠ []) (hc : ∀ c ∈ w, c ≠ ' ') :
    TW.wsChunk w = false := by
  cases w with
  | nil => exact absurd rfl hne
  | cons c t =>
    have := hc c (by simp)
    simp [TW.wsChunk, this]

lemma spPairs_cons (w : List Char) (g : List (List Char)) :
    spPairs (w :: g) = [' '] :: w :: spPairs g := by
  simp [spPairs]

lemma spPairs_ne_nil (g : List (List Char)) (h : g ≠ []) : spPairs g ≠ [] := by
  cases g with
  | nil => exact absurd rfl h
  | cons w t => simp [spPairs_cons]

lemma getLast_spPairs (g : List (List Char)) (h : g ≠ []) :
    (spPairs g).getLast? = g.getLast? := by
  induction g with
  | nil => exact absurd rfl h
  | cons w t ih =>
    cases t with
    | nil => simp [spPairs]
    | cons w2 t2 =>
      rw [spPairs_cons]
      have h2 : spPairs (w2 :: t2) ≠ [] := spPairs_ne_nil _ (by simp)
      have h3 : ([' '] :: w :: spPairs (w2 :: t2)).getLast?
          = (spPairs (w2 :: t2)).getLast? := by
        rw [show ([' '] :: w :: spPairs (w2 :: t2)) = [[' '], w] ++ spPairs (w2 :: t2)
          from rfl]
        exact List.getLast?_append_of_ne_nil _ h2
      rw [h3, ih (by simp)]
      exact List.getLast?_cons_cons.symm

lemma flatten_word_spPairs (g : List (List Char)) (w : List Char) :
    (w :: spPairs g).flatten = List.intercalate [' '] (w :: g) := by
  induction g generalizing w with
  | nil => simp [spPairs, List.intercalate]
  | cons x t ih =>
    rw [spPairs_cons]
    have h1 : (w :: [' '] :: x :: spPairs t).flatten
        = w ++ [' '] ++ (x :: spPairs t).flatten := by simp
    rw [h1, ih x]
    simp [List.intercalate]

lemma greedyTake_append (width : Nat) :
    ∀ (curLen : Nat) (ws : List (List Char)),
    (greedyTake width curLen ws).1 ++ (greedyTake width curLen ws).2 = ws := by
  intro curLen ws
  induction ws generalizing curLen with
  | nil => rfl
  | cons w rest ih =>
    unfold greedyTake
    by_cases hfit : curLen + 1 + w.length ≤ width
    · rw [if_pos hfit]
      simpa using ih (curLen + 1 + w.length)
    · rw [if_neg hfit]
      rfl

lemma greedyLinesFuel_nil (width : Nat) (n : Nat) : greedyLinesFuel width n [] = [] := by
  cases n <;> rfl

lemma greedyLinesFuel_congr (width : Nat) :
    ∀ (n m : Nat) (ws : List (List Char)), ws.length ≤ n → ws.length ≤ m →
    greedyLinesFuel width n ws = greedyLinesFuel width m ws := by
  intro n
  induction n with
  | zero =>
    intro m ws hn _
    have : ws = [] := List.length_eq_zero.mp (Nat.le_zero.mp hn)
    subst this
    rw [greedyLinesFuel_nil, greedyLinesFuel_nil]
  | succ n ih =>
    intro m ws hn hm
    cases ws with
    | nil => rw [greedyLinesFuel_nil, greedyLinesFuel_nil]
    | cons w rest =>
      cases m with
      | zero => simp at hm
      | succ m' =>
        simp only [greedyLinesFuel]
        have happ := greedyTake_append width w.length rest
        have hlen : (greedyTake width w.length rest).2.length ≤ rest.length := by
          conv_rhs => rw [← happ]
          simp
        simp only [List.length_cons] at hn hm
        rw [ih m' (greedyTake width w.length rest).2 (by omega) (by omega)]

lemma greedyLinesFuel_ne_nil (width : Nat) (n : Nat) (w : List Char)
    (rest : List (List Char)) :
    greedyLinesFuel width (n + 1) (w :: rest) ≠ [] := by
  simp [greedyLinesFuel]

lemma intercalate_append_sep (s : Char) (xs ys : List (List Char))
    (hx : xs ≠ []) (hy : ys ≠ []) :
    List.intercalate [s] (xs ++ ys)
      = List.intercalate [s] xs ++ s :: List.intercalate [s] ys := by
  induction xs with
  | nil => exact absurd rfl hx
  | cons a xs' ih =>
    cases xs' with
    | nil =>
      cases ys with
      | nil => exact absurd rfl hy
      | cons b ys' =>
        simp [List.intercalate]
    | cons a2 xs'' =>
      have ih2 := ih (by simp)
      simp only [List.cons_append] at ih2 ⊢
      rw [show List.intercalate [s] (a :: a2 :: (xs'' ++ ys))
          = a ++ [s] ++ List.intercalate [s] (a2 :: (xs'' ++ ys)) from by
        simp [List.intercalate]]
      rw [ih2]
      simp [List.intercalate]

lemma greedy_join (width : Nat) :
    ∀ (n : Nat) (ws : List (List Char)), ws.length ≤ n → (∀ w ∈ ws, w ≠ []) →
    List.intercalate [' '] (greedyLinesFuel width n ws) = List.intercalate [' '] ws := by
  intro n
  induction n with
  | zero =>
    intro ws hn _
    have : ws = [] := List.length_eq_zero.mp (Nat.le_zero.mp hn)
    subst this
    rfl
  | succ n ih =>
    intro ws hn hws
    cases ws with
    | nil => rfl
    | cons w rest =>
      simp only [greedyLinesFuel]
      have happ := greedyTake_append width w.length rest
      have hlen : (greedyTake width w.length rest).2.length ≤ rest.length := by
        conv_rhs => rw [← happ]
        simp
      simp only [List.length_cons] at hn
      cases ht2 : (greedyTake width w.length rest).2 with
      | nil =>
        rw [greedyLinesFuel_nil]
        have ht1 : (greedyTake width w.length rest).1 = rest := by
          have := happ
          rw [ht2] at this
          simpa using this
        rw [ht1]
        simp [List.intercalate]
      | cons r2 rs2 =>
        have hlen2 : (r2 :: rs2).length ≤ n := by
          rw [← ht2]
          omega
        have hsub : ∀ x ∈ r2 :: rs2, x ≠ [] := by
          intro x hx
          refine hws x ?_
          have : x ∈ (greedyTake width w.length rest).2 := by rw [ht2]; exact hx
          have : x ∈ rest := by
            rw [← happ]
            exact List.mem_append_right _ this
          exact List.mem_cons_of_mem w this
        have hne2 : greedyLinesFuel width n (r2 :: rs2) ≠ [] := by
          cases n with
          | zero => simp at hlen2
          | succ n' => exact greedyLinesFuel_ne_nil width n' r2 rs2
        obtain ⟨l0, ls, hls⟩ : ∃ l0 ls, greedyLinesFuel width n (r2 :: rs2) = l0 :: ls := by
          cases hg : greedyLinesFuel width n (r2 :: rs2) with
          | nil => exact absurd hg hne2
          | cons l0 ls => exact ⟨l0, ls, rfl⟩
        rw [hls]
        rw [show List.intercalate [' ']
            (List.intercalate [' '] (w :: (greedyTake width w.length rest).1) :: l0 :: ls)
          = List.intercalate [' '] (w :: (greedyTake width w.length rest).1)
            ++ ' ' :: List.intercalate [' '] (l0 :: ls) from by simp [List.intercalate]]
        rw [← hls, ih (r2 :: rs2) hlen2 hsub]
        rw [← intercalate_append_sep ' ' _ _ (by simp) (by simp)]
        have : (w :: (greedyTake width w.length rest).1) ++ r2 :: rs2 = w :: rest := by
          rw [← ht2]
          simp [happ]
        rw [this]

lemma fill_sp_char (width : Nat) :
    ∀ (ws : List (List Char)) (curLen : Nat) (acc : List (List Char)),
    ws ≠ [] → (∀ w ∈ ws, w ≠ [] ∧ w.length ≤ width) →
    ((greedyTake width curLen ws).2 = [] ∧ ∃ m,
      TW.fillLine width curLen acc ([' '] :: List.intersperse [' '] ws)
        = (acc ++ spPairs (greedyTake width curLen ws).1, m, [])) ∨
    ((greedyTake width curLen ws).2 ≠ [] ∧ ∃ m,
      TW.fillLine width curLen acc ([' '] :: List.intersperse [' '] ws)
        = (acc ++ spPairs (greedyTake width curLen ws).1 ++ [[' ']], m,
            List.intersperse [' '] (greedyTake width curLen ws).2)) ∨
    ((greedyTake width curLen ws).2 ≠ [] ∧ ∃ m,
      TW.fillLine width curLen acc ([' '] :: List.intersperse [' '] ws)
        = (acc ++ spPairs (greedyTake width curLen ws).1, m,
            [' '] :: List.intersperse [' '] (greedyTake width curLen ws).2)) := by
  intro ws
  induction ws with
  | nil => intro curLen acc hne _; exact absurd rfl hne
  | cons w ws' ih =>
    intro curLen acc _ hok
    have hw := hok w (by simp)
    have hwlen : 1 ≤ w.length := List.length_pos.mpr hw.1
    cases ws' with
    | nil =>
      by_cases hfit : curLen + 1 + w.length ≤ width
      · left
        have h1 : curLen + 1 ≤ width := by omega
        refine ⟨by simp [greedyTake, hfit], ⟨curLen + 1 + w.length, ?_⟩⟩
        have e1 : TW.fillLine width curLen acc ([' '] :: List.intersperse [' '] [w])
            = TW.fillLine width (curLen + 1) (acc ++ [[' ']]) [w] := by
          simp only [List.intersperse, TW.fillLine, List.length_cons, List.length_nil]
          rw [if_pos (by omega)]
        have e2 : TW.fillLine width (curLen + 1) (acc ++ [[' ']]) [w]
            = (acc ++ [[' ']] ++ [w], curLen + 1 + w.length, []) := by
          simp only [TW.fillLine]
          rw [if_pos (by omega)]
        rw [e1, e2]
        simp [greedyTake, hfit, spPairs]
      · by_cases h1 : curLen + 1 ≤ width
        · right; left
          refine ⟨by simp [greedyTake, hfit], ⟨curLen + 1, ?_⟩⟩
          have e1 : TW.fillLine width curLen acc ([' '] :: List.intersperse [' '] [w])
              = TW.fillLine width (curLen + 1) (acc ++ [[' ']]) [w] := by
            simp only [List.intersperse, TW.fillLine, List.length_cons, List.length_nil]
            rw [if_pos (by omega)]
          have e2 : TW.fillLine width (curLen + 1) (acc ++ [[' ']]) [w]
              = (acc ++ [[' ']], curLen + 1, [w]) := by
            simp only [TW.fillLine]
            rw [if_neg (by omega)]
          rw [e1, e2]
          simp [greedyTake, hfit, spPairs]
        · right; right
          refine ⟨by simp [greedyTake, hfit], ⟨curLen, ?_⟩⟩
          have e1 : TW.fillLine width curLen acc ([' '] :: List.intersperse [' '] [w])
              = (acc, curLen, [' '] :: [w]) := by
            simp only [List.intersperse, TW.fillLine, List.length_cons, List.length_nil]
            rw [if_neg (by omega)]
          rw [e1]
          simp [greedyTake, hfit, spPairs]
    | cons w2 rest =>
      have hok' : ∀ x ∈ w2 :: rest, x ≠ [] ∧ x.length ≤ width :=
        fun x hx => hok x (List.mem_cons_of_mem w hx)
      have hint : List.intersperse [' '] (w :: w2 :: rest)
          = w :: [' '] :: List.intersperse [' '] (w2 :: rest) := rfl
      by_cases hfit : curLen + 1 + w.length ≤ width
      · have h1 : curLen + 1 ≤ width := by omega
        have e1 : TW.fillLine width curLen acc
            ([' '] :: List.intersperse [' '] (w :: w2 :: rest))
            = TW.fillLine width (curLen + 1 + w.length) (acc ++ [[' ']] ++ [w])
              ([' '] :: List.intersperse [' '] (w2 :: rest)) := by
          rw [hint]
          simp only [TW.fillLine, List.length_cons, List.length_nil]
          rw [if_pos (by omega)]
          rw [if_pos (by omega)]
        have hgt : greedyTake width curLen (w :: w2 :: rest)
            = (w :: (greedyTake width (curLen + 1 + w.length) (w2 :: rest)).1,
               (greedyTake width (curLen + 1 + w.length) (w2 :: rest)).2) := by
          simp [greedyTake, hfit]
        have hacc : ∀ g : List (List Char),
            (acc ++ [[' ']] ++ [w]) ++ spPairs g = acc ++ spPairs (w :: g) := by
          intro g
          rw [spPairs_cons]
          simp
        rcases ih (curLen + 1 + w.length) (acc ++ [[' ']] ++ [w]) (by simp) hok'
          with ⟨hc, m, hfill⟩ | ⟨hc, m, hfill⟩ | ⟨hc, m, hfill⟩
        · left
          refine ⟨by rw [hgt]; exact hc, ⟨m, ?_⟩⟩
          rw [e1, hfill, hgt, hacc]
        · right; left
          refine ⟨by rw [hgt]; exact hc, ⟨m, ?_⟩⟩
          rw [e1, hfill, hgt, hacc]
        · right; right
          refine ⟨by rw [hgt]; exact hc, ⟨m, ?_⟩⟩
          rw [e1, hfill, hgt, hacc]
      · have hgt : greedyTake width curLen (w :: w2 :: rest)
            = ([], w :: w2 :: rest) := by
          simp [greedyTake, hfit]
        by_cases h1 : curLen + 1 ≤ width
        · right; left
          refine ⟨by rw [hgt]; simp, ⟨curLen + 1, ?_⟩⟩
          have e1 : TW.fillLine width curLen acc
              ([' '] :: List.intersperse [' '] (w :: w2 :: rest))
              = (acc ++ [[' ']], curLen + 1,
                  w :: [' '] :: List.intersperse [' '] (w2 :: rest)) := by
            rw [hint]
            simp only [TW.fillLine, List.length_cons, List.length_nil]
            rw [if_pos (by omega)]
            rw [if_neg (by omega)]
          rw [e1, hgt]
          simp [spPairs, hint]
        · right; right
          refine ⟨by rw [hgt]; simp, ⟨curLen, ?_⟩⟩
          have e1 : TW.fillLine width curLen acc
              ([' '] :: List.intersperse [' '] (w :: w2 :: rest))
              = (acc, curLen, [' '] :: List.intersperse [' '] (w :: w2 :: rest)) := by
            simp only [TW.fillLine, List.length_cons, List.length_nil]
            rw [if_neg (by omega)]
          rw [e1, hgt]
          simp [spPairs]

lemma wrapChunksLoop_nil (width : Nat) (f : Nat) (lines : List (List Char)) :
    TW.wrapChunksLoop width f lines [] = lines.reverse := by
  cases f <;> rfl

lemma wrapChunksLoop_cons_eq (width f : Nat) (lines : List (List Char))
    (c0 : List Char) (rest0 : List (List Char)) :
    TW.wrapChunksLoop width (f + 1) lines (c0 :: rest0)
      = wrapIter width f lines
          (if TW.wsChunk c0 ∧ lines ≠ [] then rest0 else c0 :: rest0) := rfl

lemma fillLine_cons_fits (width curLen : Nat) (acc : List (List Char))
    (c : List Char) (rest : List (List Char)) (h : curLen + c.length ≤ width) :
    TW.fillLine width curLen acc (c :: rest)
      = TW.fillLine width (curLen + c.length) (acc ++ [c]) rest := by
  simp only [TW.fillLine]
  rw [if_pos h]

lemma longWordStep_fits (width len : Nat) (cur : List (List Char))
    (chunks : List (List Char))
    (h : ∀ c, chunks.head? = some c → c.length ≤ width) :
    TW.longWordStep width len cur chunks = (cur, chunks) := by
  cases chunks with
  | nil => rfl
  | cons c rest =>
    have hc := h c rfl
    simp [TW.longWordStep, Nat.not_lt.mpr hc]

lemma intersperse_head (s : Char) (u : List Char) (us : List (List Char)) :
    (List.intersperse [s] (u :: us)).head? = some u := by
  cases us <;> rfl

lemma dropTrailing_space_last (cur : List (List Char)) :
    TW.dropTrailing (cur ++ [[' ']]) = cur := by
  unfold TW.dropTrailing
  rw [List.getLast?_concat]
  simp [TW.wsChunk, List.dropLast_concat]

lemma getLast_word_spPairs (w : List Char) (g : List (List Char)) :
    ∃ u, (w :: spPairs g).getLast? = some u ∧ u ∈ w :: g := by
  cases g with
  | nil => exact ⟨w, by simp [spPairs], by simp⟩
  | cons x t =>
    have hne : spPairs (x :: t) ≠ [] := spPairs_ne_nil _ (by simp)
    have h1 : (w :: spPairs (x :: t)).getLast? = (spPairs (x :: t)).getLast? := by
      rw [show w :: spPairs (x :: t) = [w] ++ spPairs (x :: t) from rfl]
      exact List.getLast?_append_of_ne_nil _ hne
    rw [h1, getLast_spPairs _ (by simp)]
    cases hgl : (x :: t).getLast? with
    | none => simp at hgl
    | some u =>
      exact ⟨u, rfl, List.mem_cons_of_mem _ (List.mem_of_mem_getLast? hgl)⟩

lemma dropTrailing_words (w : List Char) (g : List (List Char))
    (hok : ∀ u ∈ w :: g, u ≠ [] ∧ ∀ c ∈ u, c ≠ ' ') :
    TW.dropTrailing (w :: spPairs g) = w :: spPairs g := by
  obtain ⟨u, hu, hmem⟩ := getLast_word_spPairs w g
  have h := hok u hmem
  unfold TW.dropTrailing
  rw [hu]
  simp [wsChunk_word u h.1 h.2]

lemma wrapLoop_enter (width f : Nat) (lines : List (List Char)) (b : Bool)
    (w : List Char) (rest : List (List Char))
    (hb : b = true → lines ≠ [])
    (hwne : w ≠ []) (hwc : ∀ c ∈ w, c ≠ ' ') :
    TW.wrapChunksLoop width (f + 1) lines
        ((if b then [[' ']] else []) ++ List.intersperse [' '] (w :: rest))
      = wrapIter width f lines (List.intersperse [' '] (w :: rest)) := by
  have hno : ¬(TW.wsChunk w = true ∧ lines ≠ []) := by
    rw [wsChunk_word w hwne hwc]
    simp
  cases b with
  | true =>
    rw [show ((if (true : Bool) then [[' ']] else [])
          ++ List.intersperse [' '] (w :: rest))
        = [' '] :: List.intersperse [' '] (w :: rest) from rfl]
    rw [wrapChunksLoop_cons_eq, if_pos ⟨rfl, hb rfl⟩]
  | false =>
    cases rest with
    | nil =>
      show TW.wrapChunksLoop width (f + 1) lines (w :: []) = _
      rw [wrapChunksLoop_cons_eq, if_neg hno]
      rfl
    | cons r rs =>
      show TW.wrapChunksLoop width (f + 1) lines
          (w :: [' '] :: List.intersperse [' '] (r :: rs)) = _
      rw [wrapChunksLoop_cons_eq, if_neg hno]
      rfl

lemma wrapIter_words (width : Nat) (hw : 1 ≤ width) (f : Nat)
    (lines : List (List Char)) (w : List Char) (rest : List (List Char))
    (hok : wordsOK width (w :: rest)) :
    ∃ b2 : Bool,
      wrapIter width f lines (List.intersperse [' '] (w :: rest))
        = TW.wrapChunksLoop width f
            (List.intercalate [' '] (w :: (greedyTake width w.length rest).1) :: lines)
            ((if b2 then [[' ']] else []) ++
              List.intersperse [' '] (greedyTake width w.length rest).2) := by
  have hw0 := hok w (by simp)
  have hwfit : 0 + w.length ≤ width := by
    have := hw0.2.1
    omega
  cases rest with
  | nil =>
    refine ⟨false, ?_⟩
    have hfill : TW.fillLine width 0 [] (List.intersperse [' '] [w])
        = ([w], w.length, []) := by
      rw [show List.intersperse [' '] [w] = [w] from rfl,
        fillLine_cons_fits width 0 [] w [] hwfit]
      simp [TW.fillLine]
    have hdrop : TW.dropTrailing [w] = [w] := by
      have h2 := dropTrailing_words w [] (fun u hu => by
        simp at hu
        subst hu
        exact ⟨hw0.1, hw0.2.2⟩)
      simpa [spPairs] using h2
    simp only [wrapIter]
    rw [hfill]
    dsimp only
    simp only [TW.longWordStep]
    rw [hdrop, if_pos (show ([w] : List (List Char)) ≠ [] by simp)]
    simp [greedyTake, List.intercalate]
  | cons r rs =>
    have hok' : ∀ u ∈ r :: rs, u ≠ [] ∧ u.length ≤ width := fun u hu =>
      ⟨(hok u (List.mem_cons_of_mem _ hu)).1, (hok u (List.mem_cons_of_mem _ hu)).2.1⟩
    have hwords : ∀ u ∈ w :: (greedyTake width w.length (r :: rs)).1,
        u ≠ [] ∧ ∀ c ∈ u, c ≠ ' ' := by
      intro u hu
      rcases List.mem_cons.mp hu with h | h
      · subst h
        exact ⟨hw0.1, hw0.2.2⟩
      · have hmem : u ∈ r :: rs := by
          rw [← greedyTake_append width w.length (r :: rs)]
          exact List.mem_append_left _ h
        have h3 := hok u (List.mem_cons_of_mem _ hmem)
        exact ⟨h3.1, h3.2.2⟩
    have hrestok : ∀ u ∈ (greedyTake width w.length (r :: rs)).2, u ∈ r :: rs := by
      intro u hu
      rw [← greedyTake_append width w.length (r :: rs)]
      exact List.mem_append_right _ hu
    have hfw : TW.fillLine width 0 [] (List.intersperse [' '] (w :: r :: rs))
        = TW.fillLine width w.length [w] ([' '] :: List.intersperse [' '] (r :: rs)) := by
      rw [show List.intersperse [' '] (w :: r :: rs)
          = w :: [' '] :: List.intersperse [' '] (r :: rs) from rfl,
        fillLine_cons_fits width 0 [] w _ hwfit]
      simp
    rcases fill_sp_char width (r :: rs) w.length [w] (by simp) hok'
      with ⟨hc, m, hfill⟩ | ⟨hc, m, hfill⟩ | ⟨hc, m, hfill⟩
    · refine ⟨false, ?_⟩
      simp only [wrapIter]
      rw [hfw, hfill]
      dsimp only
      simp only [TW.longWordStep]
      rw [List.singleton_append, dropTrailing_words w _ hwords,
        if_pos (show w :: spPairs (greedyTake width w.length (r :: rs)).1 ≠ [] by simp),
        flatten_word_spPairs, hc]
      simp
    · refine ⟨false, ?_⟩
      obtain ⟨u, us, ht2⟩ : ∃ u us,
          (greedyTake width w.length (r :: rs)).2 = u :: us := by
        cases h2 : (greedyTake width w.length (r :: rs)).2 with
        | nil => exact absurd h2 hc
        | cons u us => exact ⟨u, us, rfl⟩
      have hulen : u.length ≤ width :=
        (hok' u (hrestok u (by rw [ht2]; simp))).2
      have hlw := longWordStep_fits width m
        ([w] ++ spPairs (greedyTake width w.length (r :: rs)).1 ++ [[' ']])
        (List.intersperse [' '] (greedyTake width w.length (r :: rs)).2)
        (fun c hcz => by
          rw [ht2, intersperse_head] at hcz
          injection hcz with h
          subst h
          exact hulen)
      simp only [wrapIter]
      rw [hfw, hfill]
      dsimp only
      rw [hlw]
      dsimp only
      rw [dropTrailing_space_last, List.singleton_append,
        if_pos (show w :: spPairs (greedyTake width w.length (r :: rs)).1 ≠ [] by simp),
        flatten_word_spPairs]
      simp
    · refine ⟨true, ?_⟩
      have hlw := longWordStep_fits width m
        ([w] ++ spPairs (greedyTake width w.length (r :: rs)).1)
        ([' '] :: List.intersperse [' '] (greedyTake width w.length (r :: rs)).2)
        (fun c hcz => by
          injection hcz with h
          subst h
          simpa using hw)
      simp only [wrapIter]
      rw [hfw, hfill]
      dsimp only
      rw [hlw]
      dsimp only
      rw [List.singleton_append, dropTrailing_words w _ hwords,
        if_pos (show w :: spPairs (greedyTake width w.length (r :: rs)).1 ≠ [] by simp),
        flatten_word_spPairs]
      simp

lemma wrapLoop_greedy (width : Nat) (hw : 1 ≤ width) :
    ∀ (fuel : Nat) (ws lines : List (List Char)) (b : Bool),
    wordsOK width ws → (b = true → lines ≠ []) → ws.length + 2 ≤ fuel →
    TW.wrapChunksLoop width fuel lines
        ((if b then [[' ']] else []) ++ List.intersperse [' '] ws)
      = lines.reverse ++ greedyLinesFuel width ws.length ws := by
  intro fuel
  induction fuel with
  | zero =>
    intro ws lines b _ _ hf
    omega
  | succ f ih =>
    intro ws lines b hok hb hf
    cases ws with
    | nil =>
      cases b with
      | false =>
        show TW.wrapChunksLoop width (f + 1) lines [] = _
        rw [wrapChunksLoop_nil]
        simp [greedyLinesFuel]
      | true =>
        show TW.wrapChunksLoop width (f + 1) lines [[' ']] = _
        rw [wrapChunksLoop_cons_eq, if_pos ⟨rfl, hb rfl⟩]
        show TW.wrapChunksLoop width f
            (if TW.dropTrailing [] ≠ [] then (TW.dropTrailing []).flatten :: lines
             else lines) [] = _
        rw [wrapChunksLoop_nil]
        simp [TW.dropTrailing, greedyLinesFuel]
    | cons w rest =>
      have hw0 := hok w (by simp)
      rw [wrapLoop_enter width f lines b w rest hb hw0.1 hw0.2.2]
      obtain ⟨b2, hiter⟩ := wrapIter_words width hw f lines w rest hok
      rw [hiter]
      have happ := greedyTake_append width w.length rest
      have hok2 : wordsOK width (greedyTake width w.length rest).2 := by
        intro u hu
        refine hok u (List.mem_cons_of_mem _ ?_)
        rw [← happ]
        exact List.mem_append_right _ hu
      have hlen2 : (greedyTake width w.length rest).2.length ≤ rest.length := by
        conv_rhs => rw [← happ]
        simp
      simp only [List.length_cons] at hf
      rw [ih (greedyTake width w.length rest).2
        (List.intercalate [' '] (w :: (greedyTake width w.length rest).1) :: lines)
        b2 hok2 (fun _ => by simp) (by omega)]
      rw [greedyLinesFuel_congr width (greedyTake width w.length rest).2.length
        rest.length (greedyTake width w.length rest).2 le_rfl hlen2]
      simp only [List.length_cons, greedyLinesFuel]
      simp

lemma intersperse_measure (ws : List (List Char)) (hne : ws ≠ [])
    (hok : ∀ w ∈ ws, w ≠ []) :
    ws.length + 1 ≤ TW.chunksMeasure (List.intersperse [' '] ws) := by
  induction ws with
  | nil => exact absurd rfl hne
  | cons w rest ih =>
    have hwlen : 1 ≤ w.length := List.length_pos.mpr (hok w (by simp))
    cases rest with
    | nil =>
      simp [TW.chunksMeasure]
      omega
    | cons r rs =>
      have ih2 := ih (by simp) (fun u hu => hok u (List.mem_cons_of_mem _ hu))
      rw [show List.intersperse [' '] (w :: r :: rs)
          = w :: [' '] :: List.intersperse [' '] (r :: rs) from rfl]
      simp only [TW.chunksMeasure, List.map_cons, List.sum_cons,
        List.length_cons, List.length_singleton] at ih2 ⊢
      omega

lemma mem_intercalate_space (ws : List (List Char)) (c : Char) :
    c ∈ List.intercalate [' '] ws → c = ' ' ∨ ∃ w ∈ ws, c ∈ w := by
  induction ws with
  | nil =>
    intro h
    simp [List.intercalate] at h
  | cons w ws' ih =>
    cases ws' with
    | nil =>
      intro h
      simp [List.intercalate] at h
      exact Or.inr ⟨w, by simp, h⟩
    | cons w2 rest =>
      intro h
      rw [show List.intercalate [' '] (w :: w2 :: rest)
          = w ++ ' ' :: List.intercalate [' '] (w2 :: rest) from by
        simp [List.intercalate]] at h
      rcases List.mem_append.mp h with h | h
      · exact Or.inr ⟨w, by simp, h⟩
      · rcases List.mem_cons.mp h with h | h
        · exact Or.inl h
        · rcases ih h with h | ⟨u, hu, hcu⟩
          · exact Or.inl h
          · exact Or.inr ⟨u, List.mem_cons_of_mem _ hu, hcu⟩

lemma map_mk_data (G : List (List Char)) :
    (G.map (fun l => String.mk l)).map String.data = G := by
  induction G with
  | nil => rfl
  | cons a t ih =>
    simp only [List.map_cons]
    rw [ih]

lemma isWs_false_of_pyStrip (c : Char) (h : TW.pyStripWs c = false) :
    TW.isWs c = false := by
  cases hi : TW.isWs c with
  | false => rfl
  | true =>
    unfold TW.pyStripWs at h
    rw [hi] at h
    simp at h

/-- C4 (counterexample): at text `"ab"` and width `1` — admissible per the
claim's "every text and every wrap width ≥ 1" — `textwrap.wrap` breaks the
long word into `["a", "b"]`, and rejoining with single spaces gives
`"a b"`, not the whitespace-normalized original `"ab"`. -/
theorem C4_counterexample :
    wrapText "ab" 1 = Except.ok ["a", "b"] ∧
    joinWithSpaces ["a", "b"] ≠ wsNormalize "ab" := by
  constructor
  · decide
  · decide

/-- C4 (amended): the rejoin identity holds on the domain where no chunk
surgery occurs: for width ≥ 1 and text that is already a single-space
join of non-empty hyphen-free words, none longer than the width and none
containing a character `str.strip()` would remove (so `wordsep_re`'s
hyphenated-word and em-dash alternatives cannot fire and the
`drop_whitespace` test agrees with the ASCII model), `_wrap_text`
succeeds and rejoining its lines with single spaces reproduces the text
exactly (such text equals its whitespace normalization). -/
theorem C4_roundtrip (width : Int) (ws : List (List Char))
    (hw : 1 ≤ width)
    (hok : ∀ w ∈ ws, w ≠ [] ∧ (w.length : Int) ≤ width ∧
      ∀ c ∈ w, TW.pyStripWs c = false ∧ c ≠ '-') :
    ∃ lines,
      wrapText (String.mk (List.intercalate [' '] ws)) width = Except.ok lines ∧
      joinWithSpaces lines = String.mk (List.intercalate [' '] ws) := by
  have hsp : ∀ w ∈ ws, w ≠ [] ∧ ∀ c ∈ w, c ≠ ' ' := by
    intro w hwm
    refine ⟨(hok w hwm).1, fun c hc hspc => ?_⟩
    have h2 := ((hok w hwm).2.2 c hc).1
    rw [hspc] at h2
    exact absurd h2 (by decide)
  cases ws with
  | nil =>
    refine ⟨[], ?_, rfl⟩
    unfold wrapText
    have hpw : TW.pyWrap (String.mk (List.intercalate [' '] ([] : List (List Char))))
        width = Except.ok [] := by
      unfold TW.pyWrap TW.wrapChunks
      rw [if_neg (by omega)]
      rfl
    rw [hpw]
  | cons w0 rest0 =>
    have hwN : 1 ≤ width.toNat := by omega
    have hokN : wordsOK width.toNat (w0 :: rest0) := by
      intro u hu
      refine ⟨(hok u hu).1, ?_, (hsp u hu).2⟩
      have := (hok u hu).2.1
      omega
    have hmunge : ∀ c ∈ List.intercalate [' '] (w0 :: rest0),
        TW.isWs c = false ∨ c = ' ' := by
      intro c hc
      rcases mem_intercalate_space (w0 :: rest0) c hc with h | ⟨u, hu, hcu⟩
      · exact Or.inr h
      · exact Or.inl (isWs_false_of_pyStrip c ((hok u hu).2.2 c hcu).1)
    have hfuel : (w0 :: rest0).length + 2
        ≤ TW.chunksMeasure (List.intersperse [' '] (w0 :: rest0)) + 1 := by
      have := intersperse_measure (w0 :: rest0) (by simp) (fun u hu => (hok u hu).1)
      omega
    have hloop := wrapLoop_greedy width.toNat hwN
      (TW.chunksMeasure (List.intersperse [' '] (w0 :: rest0)) + 1)
      (w0 :: rest0) [] false hokN (by simp) hfuel
    rw [show ((if (false : Bool) then [[' ']] else [])
          ++ List.intersperse [' '] (w0 :: rest0))
        = List.intersperse [' '] (w0 :: rest0) from rfl] at hloop
    rw [List.reverse_nil, List.nil_append] at hloop
    have hpw : TW.pyWrap (String.mk (List.intercalate [' '] (w0 :: rest0))) width
        = Except.ok ((greedyLinesFuel width.toNat (w0 :: rest0).length
            (w0 :: rest0)).map (fun l => String.mk l)) := by
      unfold TW.pyWrap TW.wrapChunks
      rw [show (String.mk (List.intercalate [' '] (w0 :: rest0))).data
          = List.intercalate [' '] (w0 :: rest0) from rfl]
      rw [munge_id _ hmunge, split_intercalate (w0 :: rest0) hsp,
        if_neg (by omega), hloop]
      rfl
    refine ⟨(greedyLinesFuel width.toNat (w0 :: rest0).length
        (w0 :: rest0)).map (fun l => String.mk l), ?_, ?_⟩
    · unfold wrapText
      rw [hpw]
    · unfold joinWithSpaces
      rw [map_mk_data]
      rw [greedy_join width.toNat (w0 :: rest0).length (w0 :: rest0) le_rfl
        (fun u hu => (hok u hu).1)]

/-- C4 (witness): at width 5 and words `ab`, `c` the amended theorem
produces lines that rejoin to `"ab c"`. -/
theorem C4_witness :
    ∃ lines,
      wrapText (String.mk (List.intercalate [' ']
          [['a', 'b'], ['c']])) 5 = Except.ok lines ∧
      joinWithSpaces lines
        = String.mk (List.intercalate [' '] [['a', 'b'], ['c']]) :=
  C4_roundtrip 5 [['a', 'b'], ['c']] (by decide) (by decide)
